import Mathlib

/-!
Verification of the Sales Reconciliation Engine of the Accounting repository.

The definitions below are a shallow embedding of `src/db/models.py`:
`insert_sales_and_update_inventory` (the engine's `apply_batch`),
`delete_sales_for_staff_date` (the admin `revert`), `delete_sale`, and the
helpers they use (`_map_item_to_column`, the Number parsing, the duplicate
query, the per-staff/date file lock discipline).

Modelling conventions:
 * SQLite INTEGER columns are `Int`.  The `sales.number` column has INTEGER
   affinity, so a digit-string identifier such as "750100001" is stored as the
   integer it denotes; a text that is not an (optionally signed) integer
   literal stays TEXT, which we model as `none` in `Option Int` — every read
   of the column goes through Python `int(...)`, which succeeds exactly on the
   `some` values.
 * Row order of tables is list order; `INSERT` appends, `DELETE ... WHERE`
   filters, `UPDATE ... WHERE staff_id = ?` maps over the matching rows.
 * Timestamps (`updated_at`, `created_at`, journal `timestamp`) and the
   carried-through sale columns `contact_number`, `recharge_amount`, `notes`
   are never read by any verified operation and are omitted from the record
   types.
 * The `inventory_journal` rows produced by the revert loop are emitted in the
   fixed column order sim, swap, credit_50, credit_100 rather than Python's
   dict insertion order; no verified property observes journal row order
   (only filtered sums).
-/

namespace Accounting

/-! ## Python / SQLite string helpers -/

/-- ASCII lowercase conversion of one character (Python `str.lower()` on the
engine's item codes). -/
def lowerChar (c : Char) : Char :=
  if 'A' ≤ c ∧ c ≤ 'Z' then Char.ofNat (c.toNat + 32) else c

/-- Python `str.lower()`. -/
def pyLower (s : String) : String := String.mk (s.data.map lowerChar)

/-- Python whitespace for `str.strip()`. -/
def isSpaceCh (c : Char) : Bool :=
  c = ' ' || c = '\t' || c = '\n' || c = '\r' || c = '\x0b' || c = '\x0c'

/-- Python `str.strip()`. -/
def pyStrip (s : String) : String :=
  String.mk (((s.data.dropWhile isSpaceCh).reverse.dropWhile isSpaceCh).reverse)

/-- Python `str.isdigit()` restricted to ASCII digits (`""` is not a digit string). -/
def pyIsDigit (s : String) : Bool :=
  !s.isEmpty && s.toList.all Char.isDigit

/-- Numeric value of a digit string (0 on the empty list). -/
def natOfDigits (l : List Char) : Int :=
  l.foldl (fun a c => a * 10 + ((c.toNat : Int) - 48)) 0

/-- Value of an all-digit string, as stored under SQLite INTEGER affinity. -/
def digitsVal (s : String) : Int :=
  natOfDigits s.toList

/-- SQLite INTEGER-affinity conversion of a text value: an optionally signed
integer literal is stored as the integer it denotes, anything else stays
TEXT (`none`). -/
def sqlIntText (s : String) : Option Int :=
  match s.toList with
  | '-' :: rest =>
      if !rest.isEmpty && rest.all Char.isDigit then some (-(natOfDigits rest)) else none
  | '+' :: rest =>
      if !rest.isEmpty && rest.all Char.isDigit then some (natOfDigits rest) else none
  | l =>
      if !l.isEmpty && l.all Char.isDigit then some (natOfDigits l) else none

/-- Python `int(float(s))` on a trimmed string, for optionally signed decimal
literals (an optional fractional part truncates toward zero); any other text
fails (`none`).  Exponent forms are out of the modelled input range. -/
def pyFloatInt (s : String) : Option Int :=
  let t := (pyStrip s).toList
  let signed : Int × List Char :=
    match t with
    | '-' :: r => (-1, r)
    | '+' :: r => (1, r)
    | r => (1, r)
  let ip := signed.2.takeWhile Char.isDigit
  let rest := signed.2.dropWhile Char.isDigit
  match rest with
  | [] => if ip.isEmpty then none else some (signed.1 * natOfDigits ip)
  | '.' :: fp =>
      if fp.all Char.isDigit && !(ip.isEmpty && fp.isEmpty) then
        some (signed.1 * natOfDigits ip)
      else none
  | _ => none

/-- The robust Number parsing of the apply loop (models.py lines 698-708):
`None`/blank parses to 1, a failed `int(float(...))` parses to 1, and a
non-positive result is replaced by 1. -/
def pyParseNumber (raw : Option String) : Int :=
  let n : Int :=
    match raw with
    | none => 1
    | some s => if pyStrip s = "" then 1 else (pyFloatInt s).getD 1
  if n ≤ 0 then 1 else n

/-- `str(raw_number).strip() if raw_number is not None else ''` (line 721). -/
def rawNumberStr (raw : Option String) : String :=
  match raw with
  | none => ""
  | some s => pyStrip s

/-- `is_gsm = raw_number_str.isdigit() and len(raw_number_str) >= 6` (line 722). -/
def isGsm (raw : Option String) : Bool :=
  pyIsDigit (rawNumberStr raw) && decide (6 ≤ (rawNumberStr raw).length)

/-! ## Item kinds and inventory counters -/

/-- The four inventory columns: `sim, swap, credit_50, credit_100`. -/
inductive Col : Type where
  | sim
  | swap
  | credit50
  | credit100
deriving DecidableEq, Repr

/-- SQL name of an inventory column / journal `item` string. -/
def colName : Col → String
  | .sim => "sim"
  | .swap => "swap"
  | .credit50 => "credit_50"
  | .credit100 => "credit_100"

def simCodes : List String := ["sim", "simcard", "sim_card"]
def credit50Codes : List String := ["credit50", "credit_50", "credit-50"]
def credit100Codes : List String := ["credit100", "credit_100", "credit-100"]

/-- `_map_item_to_column` (models.py lines 983-995). -/
def mapItemToColumn (item : String) : Option Col :=
  if item = "" then none
  else
    let code := pyLower (pyStrip item)
    if code ∈ simCodes then some .sim
    else if code = "swap" then some .swap
    else if code ∈ credit50Codes then some .credit50
    else if code ∈ credit100Codes then some .credit100
    else none

/-- One employee's inventory row: the four non-negative-intended counters. -/
structure Inv : Type where
  sim : Int
  swap : Int
  credit50 : Int
  credit100 : Int
deriving DecidableEq, Repr

def Inv.get (v : Inv) : Col → Int
  | .sim => v.sim
  | .swap => v.swap
  | .credit50 => v.credit50
  | .credit100 => v.credit100

/-- `UPDATE inventory SET col = col + d` on one row. -/
def Inv.add (v : Inv) : Col → Int → Inv
  | .sim, d => { v with sim := v.sim + d }
  | .swap, d => { v with swap := v.swap + d }
  | .credit50, d => { v with credit50 := v.credit50 + d }
  | .credit100, d => { v with credit100 := v.credit100 + d }

/-- Set one counter (used for the in-memory `inv_map` updates). -/
def Inv.set (v : Inv) : Col → Int → Inv
  | .sim, d => { v with sim := d }
  | .swap, d => { v with swap := d }
  | .credit50, d => { v with credit50 := d }
  | .credit100, d => { v with credit100 := d }

def Inv.zero : Inv := ⟨0, 0, 0, 0⟩

/-! ## Durable tables -/

/-- A committed `sales` row.  `number` is the INTEGER-affinity column holding
either a unit identifier or a quantity (see the affinity convention above). -/
structure SaleRow : Type where
  id : Nat
  staff_id : Nat
  report_date : String
  item_code : String
  number : Option Int
deriving DecidableEq, Repr

/-- An `inventory_journal` row. -/
structure JournalEntry : Type where
  staff_id : Option Nat
  item : String
  change_amount : Int
  change_type : String
  source : String
  source_ref : Option Nat
deriving DecidableEq, Repr

/-- A `sim_batches` row (only the fields the engine touches). -/
structure SimBatch : Type where
  gsm_number : String
  status : String
  current_location : String
deriving DecidableEq, Repr

/-- The durable database state seen by the engine. -/
structure DB : Type where
  inv : List (Nat × Inv)
  sales : List SaleRow
  journal : List JournalEntry
  simBatches : List SimBatch
  nextSaleId : Nat
deriving DecidableEq, Repr

/-- `SELECT sim, swap, credit_50, credit_100 FROM inventory WHERE staff_id = ?`
(first matching row, as `fetchone`). -/
def DB.getInv (db : DB) (sid : Nat) : Option Inv :=
  (db.inv.find? (fun p => p.1 == sid)).map (fun p => p.2)

/-- `UPDATE inventory SET col = col + d WHERE staff_id = ?` (matches zero or
more rows; no row is created). -/
def DB.invAdd (db : DB) (sid : Nat) (col : Col) (d : Int) : DB :=
  { db with inv := db.inv.map (fun p => if p.1 == sid then (p.1, p.2.add col d) else p) }

/-- `INSERT INTO inventory_journal ...`. -/
def DB.addJournal (db : DB) (j : JournalEntry) : DB :=
  { db with journal := db.journal ++ [j] }

/-- The value of one committed counter (0 when the employee has no inventory
row, as an aggregate read over a missing row would yield). -/
def invVal (db : DB) (sid : Nat) (col : Col) : Int :=
  ((db.getInv sid).getD Inv.zero).get col

/-! ## Batch entries

One parsed Excel line-item, as handed to `insert_sales_and_update_inventory`.
The Python dict accesses are projected to fields:
 * `item_code` — `e.get("item_code") or ""` (before `.lower()`);
 * `rawNumber` — `e.get("Number") or e.get("number") or e.get("NUM") or None`
    as the `str()` of the value; `none` covers a missing key and the falsy
    values (`""`, `0`) that fall through the `or` chain;
 * `credit_50` / `credit_100` — `int(e.get('credit_50') or 0)` and the
    `credit_100` analogue (a non-integer value would abort the row inside the
    per-row `try`, a path no verified property exercises);
 * `otherDigits` — the first dict value, in dict order, whose `str().strip()`
    is all digits with length > 5 (the fallback GSM scan, lines 739-745);
 * `gsmNumber` — `e.get('gsm_number')` or the first truthy value under a key
    containing "gsm" or equal to "msisdn" (lines 824-834); `none` when absent
    or falsy. -/
structure Entry : Type where
  item_code : String
  rawNumber : Option String
  credit_50 : Int
  credit_100 : Int
  otherDigits : Option String
  gsmNumber : Option String
deriving DecidableEq, Repr

/-- `store_number = raw_number if raw_number is not None else number`
(line 725), read back through the INTEGER affinity of `sales.number`. -/
def storedRaw (raw : Option String) (number : Int) : Option Int :=
  match raw with
  | none => some number
  | some s => sqlIntText s

/-- Deduction amount and stored `number` for one entry: the kind dispatch of
models.py lines 721-764.  SIM/SWAP rows with a GSM-looking Number deduct 1 and
store the identifier; otherwise they deduct the parsed quantity (a non-GSM SIM
row also scans the other columns for a digit string to store); credit rows
deduct their explicit `credit_50`/`credit_100` count; any other kind deducts
the parsed quantity. -/
def entryDeductStore (e : Entry) : Int × Option Int :=
  let itemCode := pyLower e.item_code
  let number := pyParseNumber e.rawNumber
  let rawStr := rawNumberStr e.rawNumber
  if itemCode ∈ simCodes then
    if isGsm e.rawNumber then (1, some (digitsVal rawStr))
    else
      let store : Option Int :=
        match e.otherDigits with
        | some s => some (digitsVal (pyStrip s))
        | none => some number
      (number, store)
  else if itemCode = "swap" then
    if isGsm e.rawNumber then (1, some (digitsVal rawStr)) else (number, some number)
  else if itemCode ∈ credit50Codes then (e.credit_50, storedRaw e.rawNumber number)
  else if itemCode ∈ credit100Codes then (e.credit_100, storedRaw e.rawNumber number)
  else ((if 0 < number then number else 0), storedRaw e.rawNumber number)

/-- The duplicate query of line 773:
`SELECT 1 FROM sales WHERE number = ? AND item_code IN ('sim','simcard','sim_card')`. -/
def dupHit (sales : List SaleRow) (store : Option Int) : Bool :=
  sales.any (fun r => r.number == store && simCodes.contains r.item_code)

/-- The running state of the apply loop: the uncommitted transaction view plus
the in-memory `inv_map` and the skip/insert accounting. -/
structure LoopSt : Type where
  db : DB
  invMap : Inv
  skipped : List String
  dups : Nat
  insuff : Nat
  inserted : Nat
deriving DecidableEq, Repr

/-- The three-statement persistence block that models.py repeats for the main
row and for each credit sub-row: `INSERT INTO sales`, `UPDATE inventory SET
col = col - deduct`, and the `sale`-reason journal row whose `source_ref` is
the new sale id. -/
def saleInsertStep (sid : Nat) (rdate itemCode : String) (storeNumber : Option Int)
    (col : Col) (deduct : Int) (db : DB) : DB :=
  let saleId := db.nextSaleId
  let db1 : DB :=
    { db with
      sales := db.sales ++ [⟨saleId, sid, rdate, itemCode, storeNumber⟩],
      nextSaleId := saleId + 1 }
  (db1.invAdd sid col (-deduct)).addJournal
    ⟨some sid, colName col, -deduct, "sale", "excel", some saleId⟩

/-- The best-effort sim_batches marking (models.py lines 822-846): when the
entry carries a GSM present in `sim_batches`, mark it sold and journal a
`sim_sale` row referencing the sale. -/
def simMarkStep (sid saleId : Nat) (g : Option String) (db : DB) : DB :=
  match g with
  | none => db
  | some gs =>
      if db.simBatches.any (fun b => b.gsm_number == gs) then
        { db with
          simBatches := db.simBatches.map (fun b =>
            if b.gsm_number == gs then
              { b with status := "sold", current_location := "Sold" }
            else b),
          journal := db.journal ++ [⟨some sid, "SIM", -1, "sim_sale", "sim_sale", some saleId⟩] }
      else db

/-- One credit sub-deduction (models.py lines 851-871 for credit_50 and
874-893 for credit_100): when the entry carries a positive count, either skip
with an insufficiency record or insert a dedicated sale row and deduct.
Returns the database, the in-memory map, and the skip strings/count added. -/
def creditStep (sid : Nat) (rdate : String) (col : Col) (colStr : String) (c : Int)
    (db : DB) (invMap : Inv) : DB × Inv × List String × Nat :=
  if 0 < c then
    if invMap.get col < c then
      (db, invMap,
       [colStr ++ "(insufficient:" ++ toString (invMap.get col) ++ "<" ++ toString c ++ ")"], 1)
    else
      (saleInsertStep sid rdate colStr (some c) col c db,
       invMap.set col (max 0 (invMap.get col - c)), [], 0)
  else (db, invMap, [], 0)

/-- One iteration of the apply loop (models.py lines 695-900) for entry `e`:
duplicate check, kind resolution, running-balance insufficiency check, sale
insert + inventory deduction + journal append, best-effort sim_batches
marking, and the credit_50 / credit_100 sub-deductions. -/
def processRow (sid : Nat) (rdate : String) (st : LoopSt) (e : Entry) : LoopSt :=
  let itemCode := pyLower e.item_code
  let rawStr := rawNumberStr e.rawNumber
  let ds := entryDeductStore e
  let deduct := ds.1
  let storeNumber := ds.2
  -- duplicate check, only for SIM rows with a GSM identifier (SWAP duplicates allowed)
  if isGsm e.rawNumber && simCodes.contains itemCode && dupHit st.db.sales storeNumber then
    { st with skipped := st.skipped ++ ["dup_number:" ++ rawStr], dups := st.dups + 1 }
  else
    match mapItemToColumn itemCode with
    | none => { st with skipped := st.skipped ++ [itemCode ++ "(invalid)"] }
    | some col =>
      let available := st.invMap.get col
      if available < deduct then
        { st with
          skipped := st.skipped ++
            [itemCode ++ "(insufficient:" ++ toString available ++ "<" ++ toString deduct ++ ")"],
          insuff := st.insuff + 1 }
      else
        let saleId := st.db.nextSaleId
        let db2 := saleInsertStep sid rdate itemCode storeNumber col deduct st.db
        let invMap1 := st.invMap.set col (max 0 (st.invMap.get col - deduct))
        let db3 := simMarkStep sid saleId e.gsmNumber db2
        let s50 := creditStep sid rdate .credit50 "credit_50" e.credit_50 db3 invMap1
        let s100 := creditStep sid rdate .credit100 "credit_100" e.credit_100 s50.1 s50.2.1
        { db := s100.1
          invMap := s100.2.1
          skipped := st.skipped ++ s50.2.2.1 ++ s100.2.2.1
          dups := st.dups
          insuff := st.insuff + s50.2.2.2 + s100.2.2.2
          inserted := st.inserted + 1 }

/-- The apply loop over all entries, in input order. -/
def processEntries (sid : Nat) (rdate : String) (st : LoopSt) (entries : List Entry) : LoopSt :=
  entries.foldl (processRow sid rdate) st

/-! ## The revert phase -/

/-- Per-column revert contribution of one existing sale row
(models.py lines 608-635): SIM/SWAP rows count 1 each, credit rows count their
stored `number` (a non-numeric stored text is skipped by the `except: pass`),
any other row falls to the `_map_item_to_column` guess — which can match
nothing the kind tests above did not already match. -/
def revertCountsAdd (acc : Inv) (r : SaleRow) : Inv :=
  let code := pyLower (pyStrip r.item_code)
  if code ∈ simCodes then acc.add .sim 1
  else if code = "swap" then acc.add .swap 1
  else if code ∈ credit50Codes then acc.add .credit50 (r.number.getD 0)
  else if code ∈ credit100Codes then acc.add .credit100 (r.number.getD 0)
  else
    match mapItemToColumn code with
    | some col => acc.add col (r.number.getD 0)
    | none => acc

/-- `revert_counts` over the existing rows of the key. -/
def revertCounts (rows : List SaleRow) : Inv :=
  rows.foldl revertCountsAdd Inv.zero

/-- Predicate for the rows of a (staff, date) key. -/
def isKeyRow (sid : Nat) (rdate : String) (r : SaleRow) : Bool :=
  r.staff_id == sid && r.report_date == rdate

/-- Apply the revert for one column: `UPDATE inventory SET col = col + c` plus
one `revert` journal row, both only when the count is nonzero (`if c:`). -/
def revertCol (sid : Nat) (counts : Inv) (src : String) (db : DB) (col : Col) : DB :=
  if counts.get col = 0 then db
  else
    (db.invAdd sid col (counts.get col)).addJournal
      ⟨some sid, colName col, counts.get col, "revert", src, none⟩

/-- The revert phase of `insert_sales_and_update_inventory` (lines 592-659):
if the key has live sales rows, add their per-column counts back to the
inventory, journal the reverts, and delete the rows.  With no live rows the
whole block is skipped. -/
def applyRevert (db : DB) (sid : Nat) (rdate : String) : DB :=
  let existing := db.sales.filter (isKeyRow sid rdate)
  if existing.isEmpty then db
  else
    let ids := existing.map (fun r => r.id)
    let counts := revertCounts existing
    let src := "delete_sales:" ++ String.intercalate "," (ids.map toString)
    let db1 := [Col.sim, Col.swap, Col.credit50, Col.credit100].foldl (revertCol sid counts src) db
    { db1 with sales := db1.sales.filter (fun r => !isKeyRow sid rdate r) }

/-! ## apply_batch -/

/-- The summary dict returned by `insert_sales_and_update_inventory`. -/
structure BatchResult : Type where
  skipped : List String
  duplicates_skipped : Nat
  insufficient_skipped : Nat
  inserted : Nat
deriving DecidableEq, Repr

/-- `insert_sales_and_update_inventory` (models.py lines 509-924), the engine's
`apply_batch`: revert any live batch under the (staff, date) key, re-read the
inventory (aborting with the `ValueError` of line 679 — a rollback, so the
caller observes the original state — when the staff has no inventory row),
then run the apply loop and commit. -/
def insert_sales_and_update_inventory (db : DB) (sid : Nat) (rdate : String)
    (entries : List Entry) : Except String (DB × BatchResult) :=
  let db1 := applyRevert db sid rdate
  match db1.getInv sid with
  | none => .error "No inventory found for staff"
  | some inv =>
      let st := processEntries sid rdate ⟨db1, inv, [], 0, 0, 0⟩ entries
      .ok (st.db, ⟨st.skipped, st.dups, st.insuff, st.inserted⟩)

/-- A sequence of `apply_batch` calls; a call that raises leaves the state
unchanged (its transaction rolled back). -/
def applyCalls (db : DB) (calls : List (Nat × String × List Entry)) : DB :=
  calls.foldl
    (fun d c =>
      match insert_sales_and_update_inventory d c.1 c.2.1 c.2.2 with
      | .ok r => r.1
      | .error _ => d)
    db

/-! ## Journal sums (conservation law) -/

/-- The journal reasons the conservation law counts: sale, revert, and the
backoffice transfer entries. -/
def conservedTypes : List String := ["sale", "revert", "backoffice_transfer"]

/-- Sum of the journal deltas recorded for one employee and one item kind,
over sale, revert and transfer entries. -/
def journalSum (db : DB) (sid : Nat) (col : Col) : Int :=
  ((db.journal.filter (fun j =>
      j.staff_id == some sid && j.item == colName col && conservedTypes.contains j.change_type)).map
    (fun j => j.change_amount)).sum

/-! ## delete_sale and delete_sales_for_staff_date -/

/-- `delete_sale` (models.py lines 1030-1054): look the row up, read back its
`number` through `int(...)` (raising on a non-numeric TEXT), delete it and add
the number back to the mapped counter (`if col and num:`). -/
def delete_sale (db : DB) (sale_id : Nat) : Except String (DB × Bool) :=
  match db.sales.find? (fun r => r.id == sale_id) with
  | none => .ok (db, false)
  | some row =>
      let code := pyLower row.item_code
      match row.number with
      | none => .error "invalid literal for int"
      | some num =>
          let db1 : DB := { db with sales := db.sales.filter (fun r => !(r.id == sale_id)) }
          let db2 :=
            match mapItemToColumn code with
            | some col => if num = 0 then db1 else db1.invAdd row.staff_id col num
            | none => db1
          .ok (db2, true)

/-- First-occurrence deduplication (SQL `GROUP BY` key set). -/
def dedupKeepFirst (l : List String) : List String :=
  l.foldl (fun acc s => if s ∈ acc then acc else acc ++ [s]) []

/-- `delete_sales_for_staff_date` (models.py lines 1271-1303), the admin
`revert`: group the journal entries linked to the key's sale ids by item and
negate their sums, delete the key's sales rows, add each mapped nonzero count
back to the inventory with a `revert` journal row, and return
`sum(counts.values())`. -/
def delete_sales_for_staff_date (db : DB) (sid : Nat) (rdate : String) : DB × Int :=
  let saleRows := db.sales.filter (isKeyRow sid rdate)
  let saleIds := saleRows.map (fun r => r.id)
  let counts : List (String × Int) :=
    if saleIds.isEmpty then []
    else
      let refs := db.journal.filter (fun j =>
        match j.source_ref with
        | some r => saleIds.contains r
        | none => false)
      (dedupKeepFirst (refs.map (fun j => j.item))).map (fun it =>
        (it, -(((refs.filter (fun j => j.item == it)).map (fun j => j.change_amount)).sum)))
  let src := "delete_sales:" ++ String.intercalate "," (saleIds.map toString)
  let db1 : DB := { db with sales := db.sales.filter (fun r => !isKeyRow sid rdate r) }
  let db2 := counts.foldl
    (fun d p =>
      match mapItemToColumn p.1 with
      | some col =>
          if p.2 = 0 then d
          else (d.invAdd sid col p.2).addJournal ⟨some sid, colName col, p.2, "revert", src, none⟩
      | none => d)
    db1
  (db2, (counts.map (fun p => p.2)).sum)

/-! ## The per-key lock discipline (fault model)

`insert_sales_and_update_inventory` wraps the transaction in a per-(staff,
date) lock file created with `O_CREAT|O_EXCL`.  The control flow of
models.py lines 570-917 is:

 * lock acquisition fails (file exists past the wait) → `TimeoutError` raised
   before any database access;
 * a persistence failure inside the revert block (lines 593-660) →
   `conn.rollback()` and a re-raise at line 666 — which happens *before* the
   `try`/`finally` of lines 668/911, so `_release_lock` never runs and the
   freshly created lock file is left behind;
 * a persistence failure inside the apply block before the commit (lines
   668-904) → `conn.rollback()` at line 908, and the `finally` of line 911
   releases the lock;
 * success → commit, `finally` releases the lock.

Failures are modelled by injection flags; a rollback restores the state at
call entry (nothing commits before line 904). -/

inductive ApplyError : Type where
  | lockTimeout
  | revertFailure
  | applyFailure
deriving DecidableEq, Repr

/-- Injected failure points for one `apply_batch` call. -/
structure FaultSpec : Type where
  lockBusy : Bool
  failRevert : Bool
  failApply : Bool
deriving DecidableEq, Repr

/-- Observable outcome of one `apply_batch` call: the committed state, whether
the key's lock file still exists after the call returns or raises, and the
result or raised error. -/
structure LockedOutcome : Type where
  db : DB
  lockHeld : Bool
  result : Except ApplyError BatchResult
deriving Repr

/-- `insert_sales_and_update_inventory` with the lock discipline and injected
failures, following the control flow described above. -/
def applyBatchLocked (db : DB) (sid : Nat) (rdate : String) (entries : List Entry)
    (f : FaultSpec) : LockedOutcome :=
  if f.lockBusy then ⟨db, true, .error .lockTimeout⟩
  else if f.failRevert then ⟨db, true, .error .revertFailure⟩
  else if f.failApply then ⟨db, false, .error .applyFailure⟩
  else
    match insert_sales_and_update_inventory db sid rdate entries with
    | .ok r => ⟨r.1, false, .ok r.2⟩
    | .error _ => ⟨db, false, .error .applyFailure⟩

/-! ## Basic lemmas about the counters and the database primitives -/

theorem Inv.ext_get {v w : Inv} (h : ∀ col, v.get col = w.get col) : v = w := by
  cases v; cases w
  have h1 := h .sim
  have h2 := h .swap
  have h3 := h .credit50
  have h4 := h .credit100
  simp only [Inv.get] at h1 h2 h3 h4
  simp [h1, h2, h3, h4]

@[simp] theorem Inv.get_add (v : Inv) (c c' : Col) (d : Int) :
    (v.add c d).get c' = v.get c' + (if c' = c then d else 0) := by
  cases c <;> cases c' <;> simp [Inv.add, Inv.get]

@[simp] theorem Inv.get_set (v : Inv) (c c' : Col) (d : Int) :
    (v.set c d).get c' = if c' = c then d else v.get c' := by
  cases c <;> cases c' <;> simp [Inv.set, Inv.get]

theorem Inv.add_zero_eq (v : Inv) (c : Col) : v.add c 0 = v := by
  apply Inv.ext_get
  intro col
  simp

theorem Inv.set_get_sub (v : Inv) (c : Col) (d : Int) (h : d ≤ v.get c) :
    v.set c (max 0 (v.get c - d)) = v.add c (-d) := by
  apply Inv.ext_get
  intro col
  rcases eq_or_ne col c with rfl | hne
  · rw [max_eq_right (by omega : (0:Int) ≤ v.get col - d)]
    simp
    omega
  · simp [hne]

theorem colName_inj {a b : Col} (h : colName a = colName b) : a = b := by
  cases a <;> cases b <;> first | rfl | (exfalso; simp [colName] at h)

theorem colName_eq_iff (a b : Col) : colName a = colName b ↔ a = b :=
  ⟨colName_inj, fun h => h ▸ rfl⟩

@[simp] theorem getInv_addJournal (db : DB) (j : JournalEntry) (sid : Nat) :
    (db.addJournal j).getInv sid = db.getInv sid := rfl

@[simp] theorem invAdd_sales (db : DB) (sid : Nat) (col : Col) (d : Int) :
    (db.invAdd sid col d).sales = db.sales := rfl

@[simp] theorem invAdd_journal (db : DB) (sid : Nat) (col : Col) (d : Int) :
    (db.invAdd sid col d).journal = db.journal := rfl

@[simp] theorem addJournal_sales (db : DB) (j : JournalEntry) :
    (db.addJournal j).sales = db.sales := rfl

@[simp] theorem addJournal_journal (db : DB) (j : JournalEntry) :
    (db.addJournal j).journal = db.journal ++ [j] := rfl

/-- The per-staff `UPDATE` keeps every row's key. -/
theorem invAdd_pred_comp (sid sid' : Nat) (col : Col) (d : Int) :
    ((fun p : Nat × Inv => p.1 == sid') ∘
        (fun p : Nat × Inv => if p.1 == sid then (p.1, p.2.add col d) else p))
      = (fun p : Nat × Inv => p.1 == sid') := by
  funext p
  by_cases h : p.1 = sid <;> simp [h]

theorem getInv_invAdd_self (db : DB) (sid : Nat) (col : Col) (d : Int) :
    (db.invAdd sid col d).getInv sid = (db.getInv sid).map (fun v => v.add col d) := by
  unfold DB.invAdd DB.getInv
  rw [List.find?_map, invAdd_pred_comp, Option.map_map, Option.map_map]
  cases hf : db.inv.find? (fun p => p.1 == sid) with
  | none => simp
  | some p =>
      have hp : p.1 = sid := by simpa using List.find?_some hf
      simp [Function.comp, hp]

theorem getInv_invAdd_ne (db : DB) (sid sid' : Nat) (col : Col) (d : Int) (h : sid' ≠ sid) :
    (db.invAdd sid col d).getInv sid' = db.getInv sid' := by
  unfold DB.invAdd DB.getInv
  rw [List.find?_map, invAdd_pred_comp, Option.map_map]
  cases hf : db.inv.find? (fun p => p.1 == sid') with
  | none => simp
  | some p =>
      have hp : p.1 = sid' := by simpa using List.find?_some hf
      have hps : ¬(p.1 = sid) := by
        rw [hp]
        exact h
      simp [Function.comp, hps]

theorem getInv_invAdd_isSome (db : DB) (sid sid' : Nat) (col : Col) (d : Int) :
    ((db.invAdd sid col d).getInv sid').isSome = (db.getInv sid').isSome := by
  rcases eq_or_ne sid' sid with rfl | h
  · rw [getInv_invAdd_self]; simp
  · rw [getInv_invAdd_ne db sid sid' col d h]

theorem invVal_invAdd_self (db : DB) (sid : Nat) (col col' : Col) (d : Int)
    (h : (db.getInv sid).isSome = true) :
    invVal (db.invAdd sid col d) sid col' = invVal db sid col' + (if col' = col then d else 0) := by
  rcases Option.isSome_iff_exists.mp h with ⟨v, hv⟩
  simp [invVal, getInv_invAdd_self, hv]

theorem invVal_invAdd_ne (db : DB) (sid sid' : Nat) (col col' : Col) (d : Int) (h : sid' ≠ sid) :
    invVal (db.invAdd sid col d) sid' col' = invVal db sid' col' := by
  simp [invVal, getInv_invAdd_ne db sid sid' col d h]

@[simp] theorem invVal_addJournal (db : DB) (j : JournalEntry) (sid : Nat) (col : Col) :
    invVal (db.addJournal j) sid col = invVal db sid col := rfl

/-- The filter condition of `journalSum`, in propositional form. -/
theorem journalCond_iff (j : JournalEntry) (sid : Nat) (col : Col) :
    (j.staff_id == some sid && j.item == colName col
        && conservedTypes.contains j.change_type) = true
      ↔ (j.staff_id = some sid ∧ j.item = colName col ∧ j.change_type ∈ conservedTypes) := by
  simp [List.elem_iff, and_assoc]

theorem journalSum_addJournal (db : DB) (j : JournalEntry) (sid : Nat) (col : Col) :
    journalSum (db.addJournal j) sid col
      = journalSum db sid col
        + (if j.staff_id = some sid ∧ j.item = colName col ∧ j.change_type ∈ conservedTypes
           then j.change_amount else 0) := by
  unfold journalSum
  rw [addJournal_journal, List.filter_append, List.map_append, List.sum_append]
  congr 1
  by_cases h : j.staff_id = some sid ∧ j.item = colName col ∧ j.change_type ∈ conservedTypes
  · have hb := (journalCond_iff j sid col).mpr h
    simp [List.filter_cons, hb, h]
  · have hb : (j.staff_id == some sid && j.item == colName col
        && conservedTypes.contains j.change_type) = false := by
      rcases Bool.eq_false_or_eq_true (j.staff_id == some sid && j.item == colName col
        && conservedTypes.contains j.change_type) with ht | hf
      · exact absurd ((journalCond_iff j sid col).mp ht) h
      · exact hf
    have h2 : ¬((j.staff_id = some sid ∧ j.item = colName col) ∧ j.change_type ∈ conservedTypes) := by
      tauto
    simp [List.filter_cons, h2, h]

/-- State-change conservation: the inventory delta equals the journal delta for
every employee and item kind. -/
def Conserves (db db' : DB) : Prop :=
  ∀ sid col, invVal db' sid col - invVal db sid col = journalSum db' sid col - journalSum db sid col

theorem Conserves.refl (db : DB) : Conserves db db := by
  intro sid col; omega

theorem Conserves.trans {db1 db2 db3 : DB} (h1 : Conserves db1 db2) (h2 : Conserves db2 db3) :
    Conserves db1 db3 := by
  intro sid col
  have a := h1 sid col
  have b := h2 sid col
  omega

/-- A change that touches neither the inventory nor the journal conserves. -/
theorem conserves_of_fields {db db' : DB} (h1 : db'.inv = db.inv) (h2 : db'.journal = db.journal) :
    Conserves db db' := by
  intro sid col
  have hv : invVal db' sid col = invVal db sid col := by
    simp [invVal, DB.getInv, h1]
  have hj : journalSum db' sid col = journalSum db sid col := by
    simp [journalSum, h2]
  omega

/-- A journal row whose reason is not among the conserved types (such as the
best-effort `sim_sale` rows) does not disturb conservation. -/
theorem conserves_addJournal_other (db : DB) (j : JournalEntry)
    (h : conservedTypes.contains j.change_type = false) :
    Conserves db (db.addJournal j) := by
  intro sid col
  rw [journalSum_addJournal]
  have hmem : j.change_type ∉ conservedTypes := by
    simpa [List.elem_iff] using h
  simp [hmem]

/-- An inventory update paired with the matching sale/revert journal row
conserves, provided the employee's inventory row exists (`UPDATE` then touches
exactly that row). -/
theorem conserves_pair (db : DB) (sid : Nat) (col : Col) (d : Int) (ty src : String)
    (ref : Option Nat) (hty : ty ∈ conservedTypes)
    (h : (db.getInv sid).isSome = true) :
    Conserves db ((db.invAdd sid col d).addJournal ⟨some sid, colName col, d, ty, src, ref⟩) := by
  intro sid' col'
  rw [invVal_addJournal, journalSum_addJournal]
  have hj : journalSum (db.invAdd sid col d) sid' col' = journalSum db sid' col' := by
    simp [journalSum]
  rw [hj]
  rcases eq_or_ne sid' sid with rfl | hne
  · rw [invVal_invAdd_self db sid' col col' d h]
    rcases eq_or_ne col' col with rfl | hcc
    · simp [hty]
    · have hcn : colName col ≠ colName col' := fun hh => hcc (colName_inj hh).symm
      have hno : ¬(colName col = colName col' ∧ ty ∈ conservedTypes) := by tauto
      simp [hcc, hno]
  · rw [invVal_invAdd_ne db sid sid' col col' d hne]
    have hs : ¬((some sid : Option Nat) = some sid') := by
      simp
      omega
    simp [hs]

/-- Appending only journal rows with non-conserved reasons (and leaving the
inventory untouched) conserves. -/
theorem conserves_extend (db db' : DB) (js : List JournalEntry)
    (h1 : db'.inv = db.inv) (h2 : db'.journal = db.journal ++ js)
    (hjs : ∀ j ∈ js, j.change_type ∉ conservedTypes) : Conserves db db' := by
  intro sid col
  have hv : invVal db' sid col = invVal db sid col := by
    simp [invVal, DB.getInv, h1]
  have hfil : js.filter (fun j => j.staff_id == some sid && j.item == colName col
      && conservedTypes.contains j.change_type) = [] := by
    rw [List.filter_eq_nil_iff]
    intro j hj
    intro hc
    exact hjs j hj ((journalCond_iff j sid col).mp hc).2.2
  have hj : journalSum db' sid col = journalSum db sid col := by
    unfold journalSum
    rw [h2, List.filter_append, hfil, List.append_nil]
  omega

/-! ## Step lemmas for the apply loop -/

@[simp] theorem saleInsertStep_sales (sid : Nat) (rdate ic : String) (sn : Option Int)
    (col : Col) (d : Int) (db : DB) :
    (saleInsertStep sid rdate ic sn col d db).sales
      = db.sales ++ [⟨db.nextSaleId, sid, rdate, ic, sn⟩] := rfl

theorem saleInsertStep_getInv_self (sid : Nat) (rdate ic : String) (sn : Option Int)
    (col : Col) (d : Int) (db : DB) :
    (saleInsertStep sid rdate ic sn col d db).getInv sid
      = (db.getInv sid).map (fun v => v.add col (-d)) := by
  unfold saleInsertStep
  rw [getInv_addJournal]
  exact getInv_invAdd_self _ sid col (-d)

theorem saleInsertStep_getInv_ne (sid sid' : Nat) (rdate ic : String) (sn : Option Int)
    (col : Col) (d : Int) (db : DB) (h : sid' ≠ sid) :
    (saleInsertStep sid rdate ic sn col d db).getInv sid' = db.getInv sid' := by
  unfold saleInsertStep
  rw [getInv_addJournal]
  exact getInv_invAdd_ne _ sid sid' col (-d) h

theorem saleInsertStep_isSome (sid sid' : Nat) (rdate ic : String) (sn : Option Int)
    (col : Col) (d : Int) (db : DB) :
    ((saleInsertStep sid rdate ic sn col d db).getInv sid').isSome
      = (db.getInv sid').isSome := by
  rcases eq_or_ne sid' sid with rfl | h
  · rw [saleInsertStep_getInv_self]; simp
  · rw [saleInsertStep_getInv_ne sid sid' rdate ic sn col d db h]

theorem saleInsertStep_conserves (sid : Nat) (rdate ic : String) (sn : Option Int)
    (col : Col) (d : Int) (db : DB) (h : (db.getInv sid).isSome = true) :
    Conserves db (saleInsertStep sid rdate ic sn col d db) := by
  unfold saleInsertStep
  exact Conserves.trans
    (conserves_of_fields rfl rfl)
    (conserves_pair _ sid col (-d) "sale" "excel" (some db.nextSaleId) (by decide) h)

@[simp] theorem simMarkStep_sales (sid saleId : Nat) (g : Option String) (db : DB) :
    (simMarkStep sid saleId g db).sales = db.sales := by
  unfold simMarkStep
  split
  · rfl
  · split <;> rfl

@[simp] theorem simMarkStep_getInv (sid saleId : Nat) (g : Option String) (db : DB) (sid' : Nat) :
    (simMarkStep sid saleId g db).getInv sid' = db.getInv sid' := by
  unfold simMarkStep
  split
  · rfl
  · split <;> rfl

theorem simMarkStep_conserves (sid saleId : Nat) (g : Option String) (db : DB) :
    Conserves db (simMarkStep sid saleId g db) := by
  unfold simMarkStep
  split
  · exact Conserves.refl _
  · split
    · have hjs : ∀ j ∈ [(⟨some sid, "SIM", -1, "sim_sale", "sim_sale", some saleId⟩ : JournalEntry)],
          j.change_type ∉ conservedTypes := by
        intro j hj
        have hje : j.change_type = "sim_sale" := by
          simp at hj
          rw [hj]
        rw [hje]
        decide
      exact conserves_extend _ _ _ rfl rfl hjs
    · exact Conserves.refl _

theorem creditStep_conserves (sid : Nat) (rdate : String) (col : Col) (cs : String) (c : Int)
    (db : DB) (invMap : Inv) (h : (db.getInv sid).isSome = true) :
    Conserves db (creditStep sid rdate col cs c db invMap).1 := by
  unfold creditStep
  split
  · split
    · exact Conserves.refl _
    · exact saleInsertStep_conserves sid rdate cs (some c) col c db h
  · exact Conserves.refl _

theorem creditStep_isSome (sid sid' : Nat) (rdate : String) (col : Col) (cs : String) (c : Int)
    (db : DB) (invMap : Inv) :
    (((creditStep sid rdate col cs c db invMap).1).getInv sid').isSome
      = (db.getInv sid').isSome := by
  unfold creditStep
  split
  · split
    · rfl
    · exact saleInsertStep_isSome sid sid' rdate cs (some c) col c db
  · rfl

/-- The in-memory `inv_map` mirrors the employee's uncommitted inventory row. -/
def SyncSt (sid : Nat) (st : LoopSt) : Prop :=
  st.db.getInv sid = some st.invMap

theorem creditStep_sync (sid : Nat) (rdate : String) (col : Col) (cs : String) (c : Int)
    (db : DB) (invMap : Inv) (h : db.getInv sid = some invMap) :
    ((creditStep sid rdate col cs c db invMap).1).getInv sid
      = some ((creditStep sid rdate col cs c db invMap).2.1) := by
  unfold creditStep
  split
  · split
    · exact h
    · rename_i hc hav
      rw [saleInsertStep_getInv_self, h]
      have hle : c ≤ invMap.get col := by omega
      simp [Inv.set_get_sub invMap col c hle]
  · exact h

/-- All four counters of an inventory value are non-negative. -/
def NonNegInv (v : Inv) : Prop := ∀ col, 0 ≤ v.get col

theorem nonneg_set_max (v : Inv) (c : Col) (x : Int) (h : NonNegInv v) :
    NonNegInv (v.set c (max 0 x)) := by
  intro col
  rw [Inv.get_set]
  rcases eq_or_ne col c with rfl | hne
  · simp
  · simpa [hne] using h col

theorem creditStep_nonneg (sid : Nat) (rdate : String) (col : Col) (cs : String) (c : Int)
    (db : DB) (invMap : Inv) (h : NonNegInv invMap) :
    NonNegInv ((creditStep sid rdate col cs c db invMap).2.1) := by
  unfold creditStep
  split
  · split
    · exact h
    · exact nonneg_set_max invMap col _ h
  · exact h

/-! ## Invariants of one loop iteration -/

theorem processRow_conserves (sid : Nat) (rdate : String) (st : LoopSt) (e : Entry)
    (h : (st.db.getInv sid).isSome = true) :
    Conserves st.db (processRow sid rdate st e).db := by
  simp only [processRow]
  by_cases h1 : (isGsm e.rawNumber && simCodes.contains (pyLower e.item_code)
      && dupHit st.db.sales (entryDeductStore e).2) = true
  · rw [if_pos h1]
    exact Conserves.refl _
  · rw [if_neg h1]
    cases hm : mapItemToColumn (pyLower e.item_code) with
    | none => exact Conserves.refl _
    | some col =>
        dsimp only
        by_cases hav : st.invMap.get col < (entryDeductStore e).1
        · rw [if_pos hav]
          exact Conserves.refl _
        · rw [if_neg hav]
          have c1 := saleInsertStep_conserves sid rdate (pyLower e.item_code)
            (entryDeductStore e).2 col (entryDeductStore e).1 st.db h
          have p2 : ((saleInsertStep sid rdate (pyLower e.item_code) (entryDeductStore e).2 col
              (entryDeductStore e).1 st.db).getInv sid).isSome = true := by
            rw [saleInsertStep_isSome]
            exact h
          have c2 := simMarkStep_conserves sid st.db.nextSaleId e.gsmNumber
            (saleInsertStep sid rdate (pyLower e.item_code) (entryDeductStore e).2 col
              (entryDeductStore e).1 st.db)
          have p3 : ((simMarkStep sid st.db.nextSaleId e.gsmNumber
              (saleInsertStep sid rdate (pyLower e.item_code) (entryDeductStore e).2 col
                (entryDeductStore e).1 st.db)).getInv sid).isSome = true := by
            rw [simMarkStep_getInv]
            exact p2
          have c3 := creditStep_conserves sid rdate .credit50 "credit_50" e.credit_50
            (simMarkStep sid st.db.nextSaleId e.gsmNumber
              (saleInsertStep sid rdate (pyLower e.item_code) (entryDeductStore e).2 col
                (entryDeductStore e).1 st.db))
            (st.invMap.set col (max 0 (st.invMap.get col - (entryDeductStore e).1))) p3
          have p4 : (((creditStep sid rdate .credit50 "credit_50" e.credit_50
              (simMarkStep sid st.db.nextSaleId e.gsmNumber
                (saleInsertStep sid rdate (pyLower e.item_code) (entryDeductStore e).2 col
                  (entryDeductStore e).1 st.db))
              (st.invMap.set col (max 0 (st.invMap.get col - (entryDeductStore e).1)))).1).getInv
                sid).isSome = true := by
            rw [creditStep_isSome]
            exact p3
          have c4 := creditStep_conserves sid rdate .credit100 "credit_100" e.credit_100
            (creditStep sid rdate .credit50 "credit_50" e.credit_50
              (simMarkStep sid st.db.nextSaleId e.gsmNumber
                (saleInsertStep sid rdate (pyLower e.item_code) (entryDeductStore e).2 col
                  (entryDeductStore e).1 st.db))
              (st.invMap.set col (max 0 (st.invMap.get col - (entryDeductStore e).1)))).1
            (creditStep sid rdate .credit50 "credit_50" e.credit_50
              (simMarkStep sid st.db.nextSaleId e.gsmNumber
                (saleInsertStep sid rdate (pyLower e.item_code) (entryDeductStore e).2 col
                  (entryDeductStore e).1 st.db))
              (st.invMap.set col (max 0 (st.invMap.get col - (entryDeductStore e).1)))).2.1 p4
          exact ((c1.trans c2).trans c3).trans c4

theorem processRow_getInv_isSome (sid : Nat) (rdate : String) (st : LoopSt) (e : Entry)
    (sid' : Nat) :
    ((processRow sid rdate st e).db.getInv sid').isSome = (st.db.getInv sid').isSome := by
  simp only [processRow]
  by_cases h1 : (isGsm e.rawNumber && simCodes.contains (pyLower e.item_code)
      && dupHit st.db.sales (entryDeductStore e).2) = true
  · rw [if_pos h1]
  · rw [if_neg h1]
    cases hm : mapItemToColumn (pyLower e.item_code) with
    | none => rfl
    | some col =>
        dsimp only
        by_cases hav : st.invMap.get col < (entryDeductStore e).1
        · rw [if_pos hav]
        · rw [if_neg hav]
          show (((creditStep sid rdate .credit100 "credit_100" e.credit_100 _ _).1).getInv
            sid').isSome = _
          rw [creditStep_isSome, creditStep_isSome, simMarkStep_getInv, saleInsertStep_isSome]

theorem processRow_sync (sid : Nat) (rdate : String) (st : LoopSt) (e : Entry)
    (hs : SyncSt sid st) : SyncSt sid (processRow sid rdate st e) := by
  unfold SyncSt
  simp only [processRow]
  by_cases h1 : (isGsm e.rawNumber && simCodes.contains (pyLower e.item_code)
      && dupHit st.db.sales (entryDeductStore e).2) = true
  · rw [if_pos h1]
    exact hs
  · rw [if_neg h1]
    cases hm : mapItemToColumn (pyLower e.item_code) with
    | none => exact hs
    | some col =>
        dsimp only
        by_cases hav : st.invMap.get col < (entryDeductStore e).1
        · rw [if_pos hav]
          exact hs
        · rw [if_neg hav]
          show ((creditStep sid rdate .credit100 "credit_100" e.credit_100 _ _).1).getInv sid
            = some ((creditStep sid rdate .credit100 "credit_100" e.credit_100 _ _).2.1)
          apply creditStep_sync
          apply creditStep_sync
          rw [simMarkStep_getInv, saleInsertStep_getInv_self, hs]
          have hle : (entryDeductStore e).1 ≤ st.invMap.get col := by omega
          simp [Inv.set_get_sub st.invMap col (entryDeductStore e).1 hle]

theorem processRow_nonneg (sid : Nat) (rdate : String) (st : LoopSt) (e : Entry)
    (h : NonNegInv st.invMap) : NonNegInv (processRow sid rdate st e).invMap := by
  simp only [processRow]
  by_cases h1 : (isGsm e.rawNumber && simCodes.contains (pyLower e.item_code)
      && dupHit st.db.sales (entryDeductStore e).2) = true
  · rw [if_pos h1]
    exact h
  · rw [if_neg h1]
    cases hm : mapItemToColumn (pyLower e.item_code) with
    | none => exact h
    | some col =>
        dsimp only
        by_cases hav : st.invMap.get col < (entryDeductStore e).1
        · rw [if_pos hav]
          exact h
        · rw [if_neg hav]
          apply creditStep_nonneg
          apply creditStep_nonneg
          exact nonneg_set_max st.invMap _ _ h

/-! ## Invariants of the whole loop -/

theorem processEntries_cons (sid : Nat) (rdate : String) (st : LoopSt) (e : Entry)
    (es : List Entry) :
    processEntries sid rdate st (e :: es) = processEntries sid rdate (processRow sid rdate st e) es := rfl

theorem processEntries_append (sid : Nat) (rdate : String) (st : LoopSt) (es1 es2 : List Entry) :
    processEntries sid rdate st (es1 ++ es2)
      = processEntries sid rdate (processEntries sid rdate st es1) es2 := by
  unfold processEntries
  exact List.foldl_append _ _ _ _

theorem processEntries_getInv_isSome (sid : Nat) (rdate : String) (es : List Entry)
    (st : LoopSt) (sid' : Nat) :
    ((processEntries sid rdate st es).db.getInv sid').isSome = (st.db.getInv sid').isSome := by
  induction es generalizing st with
  | nil => rfl
  | cons e es ih =>
      rw [processEntries_cons, ih, processRow_getInv_isSome]

theorem processEntries_conserves (sid : Nat) (rdate : String) (es : List Entry) (st : LoopSt)
    (h : (st.db.getInv sid).isSome = true) :
    Conserves st.db (processEntries sid rdate st es).db := by
  induction es generalizing st with
  | nil => exact Conserves.refl _
  | cons e es ih =>
      rw [processEntries_cons]
      refine Conserves.trans (processRow_conserves sid rdate st e h) (ih _ ?_)
      rw [processRow_getInv_isSome]
      exact h

theorem processEntries_sync (sid : Nat) (rdate : String) (es : List Entry) (st : LoopSt)
    (hs : SyncSt sid st) : SyncSt sid (processEntries sid rdate st es) := by
  induction es generalizing st with
  | nil => exact hs
  | cons e es ih =>
      rw [processEntries_cons]
      exact ih _ (processRow_sync sid rdate st e hs)

theorem processEntries_nonneg (sid : Nat) (rdate : String) (es : List Entry) (st : LoopSt)
    (h : NonNegInv st.invMap) : NonNegInv (processEntries sid rdate st es).invMap := by
  induction es generalizing st with
  | nil => exact h
  | cons e es ih =>
      rw [processEntries_cons]
      exact ih _ (processRow_nonneg sid rdate st e h)

/-! ## Invariants of the revert phase -/

/-- Pointwise sum of two inventory values. -/
def Inv.addInv (v w : Inv) : Inv :=
  ⟨v.sim + w.sim, v.swap + w.swap, v.credit50 + w.credit50, v.credit100 + w.credit100⟩

@[simp] theorem Inv.get_addInv (v w : Inv) (col : Col) :
    (v.addInv w).get col = v.get col + w.get col := by
  cases col <;> rfl

theorem Inv.addInv_zero (v : Inv) : v.addInv Inv.zero = v := by
  cases v
  simp [Inv.addInv, Inv.zero]

theorem foldl_add_four (v counts : Inv) :
    List.foldl (fun w c => w.add c (counts.get c)) v [Col.sim, Col.swap, Col.credit50, Col.credit100]
      = v.addInv counts := by
  show ((((v.add .sim (counts.get .sim)).add .swap (counts.get .swap)).add .credit50
      (counts.get .credit50)).add .credit100 (counts.get .credit100)) = v.addInv counts
  cases v
  cases counts
  rfl

theorem Inv.add_four (v counts : Inv) :
    ((((v.add .sim (counts.get .sim)).add .swap (counts.get .swap)).add .credit50
        (counts.get .credit50)).add .credit100 (counts.get .credit100)) = v.addInv counts := by
  cases v
  cases counts
  rfl

theorem revertCol_sales (sid : Nat) (counts : Inv) (src : String) (db : DB) (col : Col) :
    (revertCol sid counts src db col).sales = db.sales := by
  unfold revertCol
  split <;> rfl

theorem foldl_revertCol_sales (sid : Nat) (counts : Inv) (src : String) (cols : List Col) :
    ∀ db : DB, (cols.foldl (revertCol sid counts src) db).sales = db.sales := by
  induction cols with
  | nil => intro db; rfl
  | cons c cs ih =>
      intro db
      rw [List.foldl_cons, ih, revertCol_sales]

theorem revertCol_getInv_self (sid : Nat) (counts : Inv) (src : String) (db : DB) (col : Col) :
    (revertCol sid counts src db col).getInv sid
      = (db.getInv sid).map (fun v => v.add col (counts.get col)) := by
  unfold revertCol
  split
  · rename_i hz
    rw [hz]
    cases db.getInv sid <;> simp [Inv.add_zero_eq]
  · rw [getInv_addJournal, getInv_invAdd_self]

theorem revertCol_getInv_ne (sid sid' : Nat) (counts : Inv) (src : String) (db : DB) (col : Col)
    (h : sid' ≠ sid) :
    (revertCol sid counts src db col).getInv sid' = db.getInv sid' := by
  unfold revertCol
  split
  · rfl
  · rw [getInv_addJournal, getInv_invAdd_ne _ _ _ _ _ h]

theorem foldl_revertCol_getInv (sid : Nat) (counts : Inv) (src : String) (cols : List Col) :
    ∀ db : DB, (cols.foldl (revertCol sid counts src) db).getInv sid
      = (db.getInv sid).map (fun v => cols.foldl (fun w c => w.add c (counts.get c)) v) := by
  induction cols with
  | nil =>
      intro db
      simp only [List.foldl_nil]
      cases db.getInv sid <;> rfl
  | cons c cs ih =>
      intro db
      rw [List.foldl_cons, ih, revertCol_getInv_self]
      cases db.getInv sid <;> rfl

theorem foldl_revertCol_getInv_ne (sid sid' : Nat) (counts : Inv) (src : String)
    (cols : List Col) (h : sid' ≠ sid) :
    ∀ db : DB, (cols.foldl (revertCol sid counts src) db).getInv sid' = db.getInv sid' := by
  induction cols with
  | nil => intro db; rfl
  | cons c cs ih =>
      intro db
      rw [List.foldl_cons, ih, revertCol_getInv_ne _ _ _ _ _ _ h]

theorem revertCol_conserves (sid : Nat) (counts : Inv) (src : String) (db : DB) (col : Col)
    (h : (db.getInv sid).isSome = true) :
    Conserves db (revertCol sid counts src db col) := by
  unfold revertCol
  split
  · exact Conserves.refl _
  · exact conserves_pair db sid col (counts.get col) "revert" src none (by decide) h

theorem revertCol_isSome (sid sid' : Nat) (counts : Inv) (src : String) (db : DB) (col : Col) :
    ((revertCol sid counts src db col).getInv sid').isSome = (db.getInv sid').isSome := by
  rcases eq_or_ne sid' sid with rfl | h
  · rw [revertCol_getInv_self]
    simp
  · rw [revertCol_getInv_ne _ _ _ _ _ _ h]

theorem foldl_revertCol_conserves (sid : Nat) (counts : Inv) (src : String) (cols : List Col) :
    ∀ db : DB, (db.getInv sid).isSome = true →
      Conserves db (cols.foldl (revertCol sid counts src) db) := by
  induction cols with
  | nil => intro db _; exact Conserves.refl _
  | cons c cs ih =>
      intro db h
      rw [List.foldl_cons]
      refine Conserves.trans (revertCol_conserves sid counts src db c h) (ih _ ?_)
      rw [revertCol_isSome]
      exact h

@[simp] theorem getInv_with_sales (db : DB) (sl : List SaleRow) (sid : Nat) :
    ({ db with sales := sl } : DB).getInv sid = db.getInv sid := rfl

theorem applyRevert_sales (db : DB) (sid : Nat) (rdate : String) :
    (applyRevert db sid rdate).sales = db.sales.filter (fun r => !isKeyRow sid rdate r) := by
  simp only [applyRevert]
  by_cases h : (db.sales.filter (isKeyRow sid rdate)).isEmpty = true
  · rw [if_pos h]
    have hnil : db.sales.filter (isKeyRow sid rdate) = [] := by
      simpa [List.isEmpty_iff] using h
    have hall : ∀ r ∈ db.sales, ¬(isKeyRow sid rdate r = true) :=
      List.filter_eq_nil_iff.mp hnil
    have heq : db.sales.filter (fun r => !isKeyRow sid rdate r) = db.sales := by
      rw [List.filter_eq_self]
      intro r hr
      simp [hall r hr]
    rw [heq]
  · rw [if_neg h]
    show List.filter _ (_ : DB).sales = _
    rw [foldl_revertCol_sales]

theorem applyRevert_getInv_self (db : DB) (sid : Nat) (rdate : String) :
    (applyRevert db sid rdate).getInv sid
      = (db.getInv sid).map
          (fun v => v.addInv (revertCounts (db.sales.filter (isKeyRow sid rdate)))) := by
  simp only [applyRevert]
  by_cases h : (db.sales.filter (isKeyRow sid rdate)).isEmpty = true
  · rw [if_pos h]
    have hnil : db.sales.filter (isKeyRow sid rdate) = [] := by
      simpa [List.isEmpty_iff] using h
    rw [hnil]
    cases db.getInv sid with
    | none => rfl
    | some v => simp [revertCounts, Inv.addInv_zero]
  · rw [if_neg h]
    rw [getInv_with_sales, foldl_revertCol_getInv]
    have hfe : (fun v => List.foldl (fun w c => w.add c
          ((revertCounts (db.sales.filter (isKeyRow sid rdate))).get c)) v
          [Col.sim, Col.swap, Col.credit50, Col.credit100])
        = (fun v : Inv => v.addInv (revertCounts (db.sales.filter (isKeyRow sid rdate)))) :=
      funext (fun v => foldl_add_four v _)
    rw [hfe]

theorem applyRevert_getInv_ne (db : DB) (sid sid' : Nat) (rdate : String) (h : sid' ≠ sid) :
    (applyRevert db sid rdate).getInv sid' = db.getInv sid' := by
  simp only [applyRevert]
  by_cases he : (db.sales.filter (isKeyRow sid rdate)).isEmpty = true
  · rw [if_pos he]
  · rw [if_neg he]
    rw [getInv_with_sales, foldl_revertCol_getInv_ne _ _ _ _ _ h]

theorem applyRevert_isSome (db : DB) (sid sid' : Nat) (rdate : String) :
    ((applyRevert db sid rdate).getInv sid').isSome = (db.getInv sid').isSome := by
  rcases eq_or_ne sid' sid with rfl | h
  · rw [applyRevert_getInv_self]
    simp
  · rw [applyRevert_getInv_ne _ _ _ _ h]

theorem applyRevert_conserves (db : DB) (sid : Nat) (rdate : String)
    (h : (db.getInv sid).isSome = true) :
    Conserves db (applyRevert db sid rdate) := by
  simp only [applyRevert]
  by_cases he : (db.sales.filter (isKeyRow sid rdate)).isEmpty = true
  · rw [if_pos he]
    exact Conserves.refl _
  · rw [if_neg he]
    have h1 := foldl_revertCol_conserves sid
      (revertCounts (db.sales.filter (isKeyRow sid rdate)))
      ("delete_sales:" ++ String.intercalate ","
        (((db.sales.filter (isKeyRow sid rdate)).map (fun r => r.id)).map toString))
      [Col.sim, Col.swap, Col.credit50, Col.credit100] db h
    exact Conserves.trans h1 (conserves_of_fields rfl rfl)

/-! ## Conservation across apply_batch calls -/

theorem insert_sales_conserves (db : DB) (sid : Nat) (rdate : String) (entries : List Entry)
    (db2 : DB) (r : BatchResult)
    (h : insert_sales_and_update_inventory db sid rdate entries = .ok (db2, r)) :
    Conserves db db2 := by
  simp only [insert_sales_and_update_inventory] at h
  cases hg : (applyRevert db sid rdate).getInv sid with
  | none =>
      rw [hg] at h
      exact absurd h (by simp)
  | some inv =>
      rw [hg] at h
      simp only [Except.ok.injEq, Prod.mk.injEq] at h
      obtain ⟨h1, _⟩ := h
      have hpres : (db.getInv sid).isSome = true := by
        rw [← applyRevert_isSome db sid sid rdate, hg]
        rfl
      have hpres2 : ((applyRevert db sid rdate).getInv sid).isSome = true := by
        rw [hg]
        rfl
      rw [← h1]
      exact Conserves.trans (applyRevert_conserves db sid rdate hpres)
        (processEntries_conserves sid rdate entries ⟨applyRevert db sid rdate, inv, [], 0, 0, 0⟩ hpres2)

theorem applyCalls_conserves (calls : List (Nat × String × List Entry)) :
    ∀ db : DB, Conserves db (applyCalls db calls) := by
  induction calls with
  | nil => intro db; exact Conserves.refl _
  | cons c cs ih =>
      intro db
      have hstep : applyCalls db (c :: cs)
          = applyCalls
              (match insert_sales_and_update_inventory db c.1 c.2.1 c.2.2 with
                | .ok r => r.1
                | .error _ => db) cs := by
        show List.foldl _ _ _ = _
        rw [List.foldl_cons]
        rfl
      rw [hstep]
      cases hr : insert_sales_and_update_inventory db c.1 c.2.1 c.2.2 with
      | ok p =>
          exact Conserves.trans
            (insert_sales_conserves db c.1 c.2.1 c.2.2 p.1 p.2 (by rw [hr])) (ih p.1)
      | error msg => exact ih db

/-! ## Claim C1: the conservation law -/

/-- C1: Conservation law — starting from a state with an empty journal, after
any sequence of `apply_batch` calls (failed calls leaving the state unchanged,
as their transactions roll back), every employee's committed inventory counter
equals its initial value plus the sum of all journal deltas recorded for that
employee and item kind, counting sale, revert and transfer entries. -/
theorem C1_conservation_law (db : DB) (calls : List (Nat × String × List Entry))
    (sid : Nat) (col : Col) (h : db.journal = []) :
    invVal (applyCalls db calls) sid col
      = invVal db sid col + journalSum (applyCalls db calls) sid col := by
  have hc := applyCalls_conserves calls db sid col
  have h0 : journalSum db sid col = 0 := by
    unfold journalSum
    rw [h]
    rfl
  omega

def dbC1 : DB := ⟨[(1, ⟨10, 5, 20, 10⟩)], [], [], [], 1⟩

def eC1 : Entry := ⟨"SIM", some "750000001", 0, 0, none, none⟩

theorem C1_conservation_law_witness :
    dbC1.journal = [] ∧
    invVal (applyCalls dbC1 [(1, "2025-11-01", [eC1]), (1, "2025-11-01", [])]) 1 Col.sim
      = invVal dbC1 1 Col.sim
        + journalSum (applyCalls dbC1 [(1, "2025-11-01", [eC1]), (1, "2025-11-01", [])]) 1 Col.sim :=
  ⟨rfl, C1_conservation_law dbC1 [(1, "2025-11-01", [eC1]), (1, "2025-11-01", [])] 1 Col.sim rfl⟩

/-! ## Claim C3: non-negativity fails on the code -/

def dbC3 : DB := ⟨[(1, ⟨0, 0, 3, 0⟩)], [], [], [], 1⟩

def eC3 : Entry := ⟨"credit_50", some "-5", 2, 0, none, none⟩

/-- C3: the non-negativity claim fails on the code.  Starting from the
non-negative state `credit_50 = 3`, the batch containing one credit_50 row
with raw Number "-5" (stored verbatim in `sales.number`) and count 2 deducts
2; the next (empty) `apply_batch` reverts by `int('-5') = -5` and drives the
committed counter to `-4 < 0`. -/
theorem C3_negative_counter_bug :
    invVal dbC3 1 Col.credit50 = 3 ∧
    invVal (applyCalls dbC3 [(1, "2025-11-01", [eC3]), (1, "2025-11-01", [])]) 1 Col.credit50
      = -4 := by
  constructor
  · decide
  · decide

/-! ## Claim C4: duplicate suppression is SIM-only -/

def dbC4 : DB := ⟨[(1, ⟨0, 5, 0, 0⟩)], [], [], [], 1⟩

def eC4 : Entry := ⟨"swap", some "123456789", 0, 0, none, none⟩

/-- C4 counterexample: a batch of two SWAP rows sharing the well-formed
identifier "123456789" inserts both rows and reports no duplicate skip — the
duplicate check of models.py line 771 is restricted to SIM item codes
("allow SWAP duplicates"). -/
theorem C4_counterexample :
    (insert_sales_and_update_inventory dbC4 1 "2025-11-01" [eC4, eC4]).toOption.map
        (fun p => (p.2.inserted, p.2.duplicates_skipped)) = some (2, 0)
    ∧ (some ((2 : Nat), (0 : Nat)) ≠ some (1, 1)) := by
  constructor
  · decide
  · decide

/-! ## Claim C2: idempotency fails for quantity rows -/

def dbC2 : DB := ⟨[(1, ⟨10, 0, 0, 0⟩)], [], [], [], 1⟩

def eC2 : Entry := ⟨"sim", some "2", 0, 0, none, none⟩

/-- C2 counterexample: the batch holding one SIM row with quantity Number "2"
deducts 2 on the first apply (sim 10 → 8) but the revert of the second apply
adds back only 1 per SIM row, so the second apply ends at 7 ≠ 8 — the
counters after the two applies differ. -/
theorem C2_counterexample :
    (insert_sales_and_update_inventory dbC2 1 "2025-11-01" [eC2]).toOption.map
        (fun p => invVal p.1 1 Col.sim) = some 8
    ∧ invVal (applyCalls dbC2 [(1, "2025-11-01", [eC2]), (1, "2025-11-01", [eC2])]) 1 Col.sim = 7
    ∧ ((7 : Int) ≠ 8) := by
  refine ⟨?_, ?_, ?_⟩
  · decide
  · decide
  · decide

/-! ## Claim C5: the empty batch is not always a pure revert -/

def dbC5 : DB := ⟨[(1, ⟨10, 0, 0, 0⟩)], [], [], [], 1⟩

def eC5 : Entry := ⟨"sim", some "2", 0, 0, none, none⟩

/-- C5 counterexample: after the batch holding one SIM row with quantity
Number "2" (sim 10 → 8), the empty batch restores only 1 unit (one per SIM
row), ending at 9 — not the pre-batch value 10. -/
theorem C5_counterexample :
    invVal dbC5 1 Col.sim = 10
    ∧ invVal (applyCalls dbC5 [(1, "2025-11-01", [eC5]), (1, "2025-11-01", [])]) 1 Col.sim = 9
    ∧ ((9 : Int) ≠ 10) := by
  refine ⟨?_, ?_, ?_⟩
  · decide
  · decide
  · decide

/-! ## Claim C6: the running-counter insufficiency check -/

/-- C6: within one `apply_batch`, (i) the loop processes a batch
compositionally in input order — a skipped row never aborts the remaining
rows; (ii) the in-memory balance stays synchronized with the uncommitted
inventory row and non-negative, so a batch never deducts more than is
available even when several rows touch the same counter; (iii) a row whose
deduction exceeds the *in-progress* balance is skipped, recording available
vs. requested, with every other component of the state unchanged. -/
theorem C6_running_balance (sid : Nat) (rdate : String) (st : LoopSt) (e : Entry) (col : Col)
    (es1 es2 : List Entry) :
    (processEntries sid rdate st (es1 ++ es2)
        = processEntries sid rdate (processEntries sid rdate st es1) es2)
    ∧ (SyncSt sid st → NonNegInv st.invMap →
        SyncSt sid (processEntries sid rdate st es1)
          ∧ NonNegInv (processEntries sid rdate st es1).invMap
          ∧ 0 ≤ invVal (processEntries sid rdate st es1).db sid col)
    ∧ ((isGsm e.rawNumber && simCodes.contains (pyLower e.item_code)
          && dupHit st.db.sales (entryDeductStore e).2) = false →
        mapItemToColumn (pyLower e.item_code) = some col →
        st.invMap.get col < (entryDeductStore e).1 →
        processRow sid rdate st e
          = { st with
              skipped := st.skipped
                ++ [pyLower e.item_code ++ "(insufficient:" ++ toString (st.invMap.get col)
                      ++ "<" ++ toString (entryDeductStore e).1 ++ ")"],
              insuff := st.insuff + 1 }) := by
  refine ⟨processEntries_append sid rdate st es1 es2, ?_, ?_⟩
  · intro hs hn
    have hs1 := processEntries_sync sid rdate es1 st hs
    have hn1 := processEntries_nonneg sid rdate es1 st hn
    refine ⟨hs1, hn1, ?_⟩
    unfold SyncSt at hs1
    unfold invVal
    rw [hs1]
    exact hn1 col
  · intro h1 hm hlt
    have hneg : ¬((isGsm e.rawNumber && simCodes.contains (pyLower e.item_code)
        && dupHit st.db.sales (entryDeductStore e).2) = true) := by
      rw [h1]
      simp
    simp only [processRow]
    rw [if_neg hneg, hm]
    dsimp only
    rw [if_pos hlt]

def stC6 : LoopSt := ⟨⟨[(1, ⟨0, 0, 2, 0⟩)], [], [], [], 1⟩, ⟨0, 0, 2, 0⟩, [], 0, 0, 0⟩

def eC6 : Entry := ⟨"credit50", none, 3, 0, none, none⟩

theorem C6_running_balance_witness :
    processEntries 1 "2025-11-01" stC6 ([] ++ [eC6])
        = processEntries 1 "2025-11-01" (processEntries 1 "2025-11-01" stC6 []) [eC6]
    ∧ processRow 1 "2025-11-01" stC6 eC6
        = { stC6 with
            skipped := stC6.skipped
              ++ [pyLower eC6.item_code ++ "(insufficient:" ++ toString (stC6.invMap.get Col.credit50)
                    ++ "<" ++ toString (entryDeductStore eC6).1 ++ ")"],
            insuff := stC6.insuff + 1 } :=
  ⟨(C6_running_balance 1 "2025-11-01" stC6 eC6 Col.credit50 [] [eC6]).1,
   (C6_running_balance 1 "2025-11-01" stC6 eC6 Col.credit50 [] [eC6]).2.2
     (by decide) (by decide) (by decide)⟩

/-! ## Claim C7: the admin revert return value -/

def dbC7 : DB :=
  ⟨[(1, ⟨0, 0, 3, 0⟩)], [⟨1, 1, "2025-11-01", "credit_50", some 2⟩],
   [⟨some 1, "credit_50", -2, "sale", "excel", some 1⟩], [], 2⟩

/-- C7: `delete_sales_for_staff_date` deletes the key's rows but returns the
sum of the reverted per-item counts, not the number of sale rows deleted: on a
key holding one credit_50 sale of count 2 (journal delta -2) it deletes 1 row
and returns 2 — contradicting its own docstring "Returns number deleted." -/
theorem C7_return_value_bug :
    (delete_sales_for_staff_date dbC7 1 "2025-11-01").2 = 2
    ∧ dbC7.sales.length = 1
    ∧ (delete_sales_for_staff_date dbC7 1 "2025-11-01").1.sales.length = 0
    ∧ ((2 : Int) ≠ 1) := by
  refine ⟨?_, ?_, ?_, ?_⟩
  · decide
  · decide
  · decide
  · decide

/-! ## Claim C8: lock-stage atomicity and lock release -/

def dbC8 : DB := ⟨[(1, ⟨1, 0, 0, 0⟩)], [⟨1, 1, "2025-11-01", "sim", some 750000001⟩], [], [], 2⟩

/-- C8 counterexample: an `apply_batch` call that fails after acquiring the
lock — inside the revert block — rolls back but does NOT release the per-key
lock: the re-raise at models.py line 666 happens before the `try`/`finally`
of lines 668/911, so the lock file survives the failing call. -/
theorem C8_counterexample :
    (applyBatchLocked dbC8 1 "2025-11-01" [] ⟨false, true, false⟩).result
        = .error .revertFailure
    ∧ (applyBatchLocked dbC8 1 "2025-11-01" [] ⟨false, true, false⟩).lockHeld = true :=
  ⟨rfl, rfl⟩

/-- C8 (amended): a call failing at lock acquisition raises `LockTimeout` and
leaves all state untouched; a call failing inside the revert block rolls back
fully but leaves the lock held; a call failing in the apply block before the
commit rolls back fully and releases the lock; and every raising call leaves
the committed state unchanged. -/
theorem C8_lock_discipline (db : DB) (sid : Nat) (rdate : String) (entries : List Entry)
    (f : FaultSpec) :
    (f.lockBusy = true →
      applyBatchLocked db sid rdate entries f = ⟨db, true, .error .lockTimeout⟩)
    ∧ (f.lockBusy = false → f.failRevert = true →
      applyBatchLocked db sid rdate entries f = ⟨db, true, .error .revertFailure⟩)
    ∧ (f.lockBusy = false → f.failRevert = false → f.failApply = true →
      applyBatchLocked db sid rdate entries f = ⟨db, false, .error .applyFailure⟩)
    ∧ (∀ err, (applyBatchLocked db sid rdate entries f).result = .error err →
        (applyBatchLocked db sid rdate entries f).db = db) := by
  refine ⟨?_, ?_, ?_, ?_⟩
  · intro h
    simp [applyBatchLocked, h]
  · intro h1 h2
    simp [applyBatchLocked, h1, h2]
  · intro h1 h2 h3
    simp [applyBatchLocked, h1, h2, h3]
  · intro err
    unfold applyBatchLocked
    by_cases h1 : f.lockBusy = true
    · rw [if_pos h1]
      intro
      rfl
    · rw [if_neg h1]
      by_cases h2 : f.failRevert = true
      · rw [if_pos h2]
        intro
        rfl
      · rw [if_neg h2]
        by_cases h3 : f.failApply = true
        · rw [if_pos h3]
          intro
          rfl
        · rw [if_neg h3]
          cases hr : insert_sales_and_update_inventory db sid rdate entries with
          | ok p =>
              intro hres
              exact absurd hres (by simp)
          | error m =>
              intro
              rfl

theorem C8_lock_discipline_witness :
    (⟨false, true, false⟩ : FaultSpec).lockBusy = false
    ∧ applyBatchLocked dbC8 1 "2025-11-01" [] ⟨false, true, false⟩
        = ⟨dbC8, true, .error .revertFailure⟩ :=
  ⟨rfl, (C8_lock_discipline dbC8 1 "2025-11-01" [] ⟨false, true, false⟩).2.1 rfl rfl⟩

/-! ## Claim C9: delete_sale adds back the stored number -/

/-- C9: for every existing sale row whose item code maps to an inventory
column and whose stored `number` is an integer, `delete_sale` deletes the row
and increases the mapped counter by the stored `number` value — for a
unit-counted SIM/SWAP sale whose `number` stores a subscriber identifier,
the counter grows by the numeric value of the identifier, not by the 1 unit
deducted at sale time. -/
theorem C9_delete_sale_addback (db : DB) (sale_id : Nat) (row : SaleRow) (col : Col) (n : Int)
    (hfind : db.sales.find? (fun r => r.id == sale_id) = some row)
    (hcol : mapItemToColumn (pyLower row.item_code) = some col)
    (hnum : row.number = some n)
    (hpres : (db.getInv row.staff_id).isSome = true) :
    ∃ db2, delete_sale db sale_id = .ok (db2, true)
      ∧ db2.sales = db.sales.filter (fun r => !(r.id == sale_id))
      ∧ invVal db2 row.staff_id col = invVal db row.staff_id col + n := by
  simp only [delete_sale]
  rw [hfind]
  dsimp only
  rw [hnum]
  dsimp only
  rw [hcol]
  dsimp only
  rcases eq_or_ne n 0 with rfl | hn
  · rw [if_pos rfl]
    refine ⟨_, rfl, rfl, ?_⟩
    simp [invVal, DB.getInv]
  · rw [if_neg hn]
    refine ⟨_, rfl, rfl, ?_⟩
    have hpres1 : ((({ db with sales := db.sales.filter (fun r => !(r.id == sale_id)) } : DB)).getInv
        row.staff_id).isSome = true := hpres
    rw [invVal_invAdd_self _ _ _ _ _ hpres1]
    simp [invVal, DB.getInv]

def dbC9 : DB := ⟨[(7, ⟨5, 0, 0, 0⟩)], [⟨1, 7, "2025-11-01", "sim", some 123456789⟩], [], [], 2⟩

theorem C9_delete_sale_addback_witness :
    ∃ db2, delete_sale dbC9 1 = .ok (db2, true)
      ∧ db2.sales = dbC9.sales.filter (fun r => !(r.id == 1))
      ∧ invVal db2 7 Col.sim = invVal dbC9 7 Col.sim + 123456789 :=
  C9_delete_sale_addback dbC9 1 ⟨1, 7, "2025-11-01", "sim", some 123456789⟩ Col.sim 123456789
    (by decide) (by decide) (by decide) (by decide)

/-! ## Claim C10: missing or unusable Number parses to 1 -/

/-- C10: the parsed quantity defaults to 1 whenever the Number field is
missing, blank, non-numeric, zero or negative; consequently a SIM or SWAP row
without a well-formed (≥ 6-digit) identifier and with such a Number deducts
exactly 1 unit. -/
theorem C10_default_quantity_one :
    pyParseNumber none = 1
    ∧ (∀ s : String, pyStrip s = "" → pyParseNumber (some s) = 1)
    ∧ (∀ s : String, pyFloatInt s = none → pyParseNumber (some s) = 1)
    ∧ (∀ (s : String) (v : Int), pyFloatInt s = some v → v ≤ 0 → pyParseNumber (some s) = 1)
    ∧ (∀ e : Entry, (pyLower e.item_code ∈ simCodes ∨ pyLower e.item_code = "swap") →
        isGsm e.rawNumber = false → pyParseNumber e.rawNumber = 1 →
        (entryDeductStore e).1 = 1) := by
  refine ⟨by decide, ?_, ?_, ?_, ?_⟩
  · intro s h
    simp [pyParseNumber, h]
  · intro s h
    unfold pyParseNumber
    by_cases hs : pyStrip s = "" <;> simp [hs, h]
  · intro s v h hv
    unfold pyParseNumber
    by_cases hs : pyStrip s = "" <;> simp [hs, h, hv]
  · intro e hc hg hp
    rcases hc with hsim | hswap
    · simp [entryDeductStore, hsim, hg, hp]
    · have hnot : ("swap" : String) ∉ simCodes := by decide
      simp [entryDeductStore, hswap, hnot, hg, hp]

theorem C10_default_quantity_one_witness :
    pyParseNumber (some "abc") = 1
    ∧ pyParseNumber (some "-5") = 1
    ∧ pyParseNumber (some "0") = 1
    ∧ (entryDeductStore ⟨"sim", some "abc", 0, 0, none, none⟩).1 = 1 :=
  ⟨C10_default_quantity_one.2.2.1 "abc" (by decide),
   C10_default_quantity_one.2.2.2.1 "-5" (-5) (by decide) (by decide),
   C10_default_quantity_one.2.2.2.1 "0" 0 (by decide) (by decide),
   C10_default_quantity_one.2.2.2.2 ⟨"sim", some "abc", 0, 0, none, none⟩ (Or.inl (by decide))
     (by decide) (C10_default_quantity_one.2.2.1 "abc" (by decide))⟩

/-! ## Characterizations of single loop iterations -/

theorem entryDeductStore_gsm_sim (e : Entry) (h : pyLower e.item_code ∈ simCodes)
    (hg : isGsm e.rawNumber = true) :
    entryDeductStore e = (1, some (digitsVal (rawNumberStr e.rawNumber))) := by
  simp [entryDeductStore, h, hg]

theorem entryDeductStore_gsm_swap (e : Entry) (h : pyLower e.item_code = "swap")
    (hg : isGsm e.rawNumber = true) :
    entryDeductStore e = (1, some (digitsVal (rawNumberStr e.rawNumber))) := by
  have hnot : ("swap" : String) ∉ simCodes := by decide
  simp [entryDeductStore, h, hnot, hg]

theorem mapItemToColumn_simCodes (s : String) (h : s ∈ simCodes) :
    mapItemToColumn s = some .sim := by
  simp only [simCodes, List.mem_cons, List.mem_singleton, List.not_mem_nil, or_false] at h
  rcases h with rfl | rfl | rfl <;> decide

theorem mapItemToColumn_swap : mapItemToColumn "swap" = some .swap := by decide

/-- The duplicate-skip branch of the loop. -/
theorem processRow_dup_char (sid : Nat) (rdate : String) (st : LoopSt) (e : Entry)
    (hdup : (isGsm e.rawNumber && simCodes.contains (pyLower e.item_code)
      && dupHit st.db.sales (entryDeductStore e).2) = true) :
    processRow sid rdate st e
      = { st with skipped := st.skipped ++ ["dup_number:" ++ rawNumberStr e.rawNumber],
                  dups := st.dups + 1 } := by
  simp only [processRow]
  rw [if_pos hdup]

theorem creditStep_sales_append (sid : Nat) (rdate : String) (col : Col) (cs : String)
    (c : Int) (db : DB) (invMap : Inv) :
    ∃ rest, ((creditStep sid rdate col cs c db invMap).1).sales = db.sales ++ rest := by
  unfold creditStep
  split
  · split
    · exact ⟨[], (List.append_nil _).symm⟩
    · exact ⟨_, saleInsertStep_sales _ _ _ _ _ _ _⟩
  · exact ⟨[], (List.append_nil _).symm⟩

/-- The insert branch of the loop: the row counts as inserted, the duplicate
counter is untouched, and the sales table grows by the main row (and possibly
credit sub-rows). -/
theorem processRow_insert_char (sid : Nat) (rdate : String) (st : LoopSt) (e : Entry) (col : Col)
    (hdup : (isGsm e.rawNumber && simCodes.contains (pyLower e.item_code)
      && dupHit st.db.sales (entryDeductStore e).2) = false)
    (hm : mapItemToColumn (pyLower e.item_code) = some col)
    (hav : ¬(st.invMap.get col < (entryDeductStore e).1)) :
    (processRow sid rdate st e).inserted = st.inserted + 1
    ∧ (processRow sid rdate st e).dups = st.dups
    ∧ ∃ rest, (processRow sid rdate st e).db.sales
        = st.db.sales
          ++ [⟨st.db.nextSaleId, sid, rdate, pyLower e.item_code, (entryDeductStore e).2⟩]
          ++ rest := by
  have hneg : ¬((isGsm e.rawNumber && simCodes.contains (pyLower e.item_code)
      && dupHit st.db.sales (entryDeductStore e).2) = true) := by
    rw [hdup]
    simp
  simp only [processRow]
  rw [if_neg hneg, hm]
  dsimp only
  rw [if_neg hav]
  refine ⟨rfl, rfl, ?_⟩
  obtain ⟨r1, hr1⟩ := creditStep_sales_append sid rdate .credit50 "credit_50" e.credit_50
    (simMarkStep sid st.db.nextSaleId e.gsmNumber
      (saleInsertStep sid rdate (pyLower e.item_code) (entryDeductStore e).2 col
        (entryDeductStore e).1 st.db))
    (st.invMap.set col (max 0 (st.invMap.get col - (entryDeductStore e).1)))
  obtain ⟨r2, hr2⟩ := creditStep_sales_append sid rdate .credit100 "credit_100" e.credit_100
    (creditStep sid rdate .credit50 "credit_50" e.credit_50
      (simMarkStep sid st.db.nextSaleId e.gsmNumber
        (saleInsertStep sid rdate (pyLower e.item_code) (entryDeductStore e).2 col
          (entryDeductStore e).1 st.db))
      (st.invMap.set col (max 0 (st.invMap.get col - (entryDeductStore e).1)))).1
    (creditStep sid rdate .credit50 "credit_50" e.credit_50
      (simMarkStep sid st.db.nextSaleId e.gsmNumber
        (saleInsertStep sid rdate (pyLower e.item_code) (entryDeductStore e).2 col
          (entryDeductStore e).1 st.db))
      (st.invMap.set col (max 0 (st.invMap.get col - (entryDeductStore e).1)))).2.1
  refine ⟨r1 ++ r2, ?_⟩
  show ((creditStep _ _ _ _ _ _ _).1).sales = _
  rw [hr2, hr1, simMarkStep_sales, saleInsertStep_sales]
  simp [List.append_assoc]

theorem dupHit_true_of_mem (sales : List SaleRow) (store : Option Int) (r : SaleRow)
    (hr : r ∈ sales) (hn : r.number = store) (hc : r.item_code ∈ simCodes) :
    dupHit sales store = true := by
  unfold dupHit
  rw [List.any_eq_true]
  refine ⟨r, hr, ?_⟩
  simp [hn, hc]

/-! ## Claim C4 (amended): SIM-only duplicate suppression -/

/-- C4 (amended): duplicate suppression applies to SIM rows.  For a batch of
exactly two SIM rows bearing the same well-formed GSM identifier, with no live
sale row left after the revert phase already carrying that identifier under a
sim item code and at least one SIM in stock after the revert phase, exactly
one row is inserted (the first) and the returned summary reports
`skipped_duplicates = 1`. -/
theorem C4_sim_duplicate_suppression (db : DB) (sid : Nat) (rdate : String) (e1 e2 : Entry)
    (inv : Inv)
    (h1 : pyLower e1.item_code ∈ simCodes) (h2 : pyLower e2.item_code ∈ simCodes)
    (hg1 : isGsm e1.rawNumber = true) (hg2 : isGsm e2.rawNumber = true)
    (hsame : rawNumberStr e2.rawNumber = rawNumberStr e1.rawNumber)
    (hclean : dupHit (applyRevert db sid rdate).sales
      (some (digitsVal (rawNumberStr e1.rawNumber))) = false)
    (hinv : (applyRevert db sid rdate).getInv sid = some inv)
    (hstock : 1 ≤ inv.sim) :
    ∃ db2 r, insert_sales_and_update_inventory db sid rdate [e1, e2] = .ok (db2, r)
      ∧ r.inserted = 1 ∧ r.duplicates_skipped = 1 := by
  simp only [insert_sales_and_update_inventory]
  rw [hinv]
  dsimp only
  refine ⟨_, _, rfl, ?_, ?_⟩
  all_goals {
    have hst0 : processEntries sid rdate ⟨applyRevert db sid rdate, inv, [], 0, 0, 0⟩ [e1, e2]
        = processRow sid rdate
            (processRow sid rdate ⟨applyRevert db sid rdate, inv, [], 0, 0, 0⟩ e1) e2 := rfl
    have hds1 := entryDeductStore_gsm_sim e1 h1 hg1
    have hds2 := entryDeductStore_gsm_sim e2 h2 hg2
    have hdup1 : (isGsm e1.rawNumber && simCodes.contains (pyLower e1.item_code)
        && dupHit (⟨applyRevert db sid rdate, inv, [], 0, 0, 0⟩ : LoopSt).db.sales
          (entryDeductStore e1).2) = false := by
      show (_ && _ && dupHit (applyRevert db sid rdate).sales (entryDeductStore e1).2) = false
      rw [hds1]
      show (_ && _ && dupHit _ (some (digitsVal (rawNumberStr e1.rawNumber)))) = false
      rw [hclean]
      simp
    have hmap1 := mapItemToColumn_simCodes (pyLower e1.item_code) h1
    have hav1 : ¬((⟨applyRevert db sid rdate, inv, [], 0, 0, 0⟩ : LoopSt).invMap.get Col.sim
        < (entryDeductStore e1).1) := by
      rw [hds1]
      show ¬(inv.get Col.sim < 1)
      show ¬(inv.sim < 1)
      omega
    obtain ⟨hins1, hdups1, rest, hsales1⟩ := processRow_insert_char sid rdate
      ⟨applyRevert db sid rdate, inv, [], 0, 0, 0⟩ e1 Col.sim hdup1 hmap1 hav1
    have hmain : (⟨(⟨applyRevert db sid rdate, inv, [], 0, 0, 0⟩ : LoopSt).db.nextSaleId,
        sid, rdate, pyLower e1.item_code, (entryDeductStore e1).2⟩ : SaleRow)
        ∈ (processRow sid rdate ⟨applyRevert db sid rdate, inv, [], 0, 0, 0⟩ e1).db.sales := by
      rw [hsales1]
      simp
    have hdup2 : (isGsm e2.rawNumber && simCodes.contains (pyLower e2.item_code)
        && dupHit (processRow sid rdate ⟨applyRevert db sid rdate, inv, [], 0, 0, 0⟩ e1).db.sales
          (entryDeductStore e2).2) = true := by
      rw [hds2, hsame, hg2]
      have hc2 : simCodes.contains (pyLower e2.item_code) = true := by
        simp [List.elem_iff]
        exact h2
      rw [hc2]
      have hd := dupHit_true_of_mem
        (processRow sid rdate ⟨applyRevert db sid rdate, inv, [], 0, 0, 0⟩ e1).db.sales
        (some (digitsVal (rawNumberStr e1.rawNumber))) _ hmain (by rw [hds1]) h1
      rw [hd]
      rfl
    have hst2 := processRow_dup_char sid rdate
      (processRow sid rdate ⟨applyRevert db sid rdate, inv, [], 0, 0, 0⟩ e1) e2 hdup2
    rw [hst0, hst2]
    simp [hins1, hdups1]
  }

def dbC4A : DB := ⟨[(3, ⟨2, 0, 0, 0⟩)], [], [], [], 1⟩

def eC4A : Entry := ⟨"SIM", some "750100009", 0, 0, none, none⟩

theorem C4_sim_duplicate_suppression_witness :
    ∃ db2 r, insert_sales_and_update_inventory dbC4A 3 "2025-11-01" [eC4A, eC4A] = .ok (db2, r)
      ∧ r.inserted = 1 ∧ r.duplicates_skipped = 1 :=
  C4_sim_duplicate_suppression dbC4A 3 "2025-11-01" eC4A eC4A ⟨2, 0, 0, 0⟩
    (by decide) (by decide) (by decide) (by decide) (by decide) (by decide) (by decide) (by decide)

/-! ## Unit-counted GSM entries: exact reversal of the apply loop -/

/-- A unit-counted line-item in the shape the repository's own tests exercise:
a SIM or SWAP item code bearing a well-formed (all-digit, length ≥ 6)
identifier and no credit sub-counts. -/
def GsmUnitEntry (e : Entry) : Prop :=
  (pyLower e.item_code ∈ simCodes ∨ pyLower e.item_code = "swap")
  ∧ isGsm e.rawNumber = true ∧ e.credit_50 = 0 ∧ e.credit_100 = 0

theorem creditStep_zero (sid : Nat) (rdate : String) (col : Col) (cs : String) (c : Int)
    (db : DB) (invMap : Inv) (h : c ≤ 0) :
    creditStep sid rdate col cs c db invMap = (db, invMap, [], 0) := by
  unfold creditStep
  rw [if_neg (by omega)]

/-- The invalid-kind skip branch of the loop. -/
theorem processRow_invalid_char (sid : Nat) (rdate : String) (st : LoopSt) (e : Entry)
    (hdup : (isGsm e.rawNumber && simCodes.contains (pyLower e.item_code)
      && dupHit st.db.sales (entryDeductStore e).2) = false)
    (hm : mapItemToColumn (pyLower e.item_code) = none) :
    processRow sid rdate st e
      = { st with skipped := st.skipped ++ [pyLower e.item_code ++ "(invalid)"] } := by
  have hneg : ¬((isGsm e.rawNumber && simCodes.contains (pyLower e.item_code)
      && dupHit st.db.sales (entryDeductStore e).2) = true) := by
    rw [hdup]
    simp
  simp only [processRow]
  rw [if_neg hneg, hm]

/-- The insufficiency skip branch of the loop. -/
theorem processRow_insuff_char (sid : Nat) (rdate : String) (st : LoopSt) (e : Entry) (col : Col)
    (hdup : (isGsm e.rawNumber && simCodes.contains (pyLower e.item_code)
      && dupHit st.db.sales (entryDeductStore e).2) = false)
    (hm : mapItemToColumn (pyLower e.item_code) = some col)
    (hlt : st.invMap.get col < (entryDeductStore e).1) :
    processRow sid rdate st e
      = { st with
          skipped := st.skipped
            ++ [pyLower e.item_code ++ "(insufficient:" ++ toString (st.invMap.get col)
                  ++ "<" ++ toString (entryDeductStore e).1 ++ ")"],
          insuff := st.insuff + 1 } := by
  have hneg : ¬((isGsm e.rawNumber && simCodes.contains (pyLower e.item_code)
      && dupHit st.db.sales (entryDeductStore e).2) = true) := by
    rw [hdup]
    simp
  simp only [processRow]
  rw [if_neg hneg, hm]
  dsimp only
  rw [if_pos hlt]

/-- Processing one unit-counted GSM entry either skips (leaving the sales
table and the in-memory balance untouched) or appends exactly one key row
storing the identifier and deducts exactly 1 from its column. -/
theorem processRow_gsm_char (sid : Nat) (rdate : String) (st : LoopSt) (e : Entry)
    (he : GsmUnitEntry e) :
    ((processRow sid rdate st e).db.sales = st.db.sales
        ∧ (processRow sid rdate st e).invMap = st.invMap)
    ∨ (∃ col, mapItemToColumn (pyLower e.item_code) = some col
        ∧ (col = Col.sim ∨ col = Col.swap)
        ∧ ¬(st.invMap.get col < 1)
        ∧ (processRow sid rdate st e).db.sales
            = st.db.sales ++ [⟨st.db.nextSaleId, sid, rdate, pyLower e.item_code,
                some (digitsVal (rawNumberStr e.rawNumber))⟩]
        ∧ (processRow sid rdate st e).invMap
            = st.invMap.set col (max 0 (st.invMap.get col - 1))) := by
  obtain ⟨hcode, hg, h50, h100⟩ := he
  have hds : entryDeductStore e = (1, some (digitsVal (rawNumberStr e.rawNumber))) := by
    rcases hcode with h | h
    · exact entryDeductStore_gsm_sim e h hg
    · exact entryDeductStore_gsm_swap e h hg
  have hmap : ∃ col, mapItemToColumn (pyLower e.item_code) = some col
      ∧ (col = Col.sim ∨ col = Col.swap) := by
    rcases hcode with h | h
    · exact ⟨.sim, mapItemToColumn_simCodes _ h, Or.inl rfl⟩
    · refine ⟨.swap, ?_, Or.inr rfl⟩
      rw [h]
      exact mapItemToColumn_swap
  obtain ⟨col, hm, hcol⟩ := hmap
  by_cases hdup : (isGsm e.rawNumber && simCodes.contains (pyLower e.item_code)
      && dupHit st.db.sales (entryDeductStore e).2) = true
  · left
    rw [processRow_dup_char sid rdate st e hdup]
    exact ⟨rfl, rfl⟩
  · have hdup2 : (isGsm e.rawNumber && simCodes.contains (pyLower e.item_code)
        && dupHit st.db.sales (entryDeductStore e).2) = false := by
      rcases Bool.eq_false_or_eq_true (isGsm e.rawNumber
          && simCodes.contains (pyLower e.item_code)
          && dupHit st.db.sales (entryDeductStore e).2) with ht | hf
      · exact absurd ht hdup
      · exact hf
    by_cases hav : st.invMap.get col < (entryDeductStore e).1
    · left
      rw [processRow_insuff_char sid rdate st e col hdup2 hm hav]
      exact ⟨rfl, rfl⟩
    · right
      refine ⟨col, hm, hcol, ?_, ?_, ?_⟩
      · rw [hds] at hav
        exact hav
      · simp only [processRow]
        rw [if_neg (by rw [hdup2]; simp), hm]
        dsimp only
        rw [if_neg hav, h50, h100,
          creditStep_zero sid rdate .credit50 "credit_50" 0 _ _ (le_refl 0)]
        dsimp only
        rw [creditStep_zero sid rdate .credit100 "credit_100" 0 _ _ (le_refl 0)]
        dsimp only
        rw [simMarkStep_sales, saleInsertStep_sales, hds]
      · simp only [processRow]
        rw [if_neg (by rw [hdup2]; simp), hm]
        dsimp only
        rw [if_neg hav, h50, h100,
          creditStep_zero sid rdate .credit50 "credit_50" 0 _ _ (le_refl 0)]
        dsimp only
        rw [creditStep_zero sid rdate .credit100 "credit_100" 0 _ _ (le_refl 0)]
        dsimp only
        rw [hds]

/-- Revert contribution of one stored unit-counted row: 1 to its column. -/
theorem revertCountsAdd_unit (acc : Inv) (row : SaleRow) (col : Col)
    (hmap : mapItemToColumn row.item_code = some col)
    (hu : row.item_code ∈ simCodes ∨ row.item_code = "swap") :
    revertCountsAdd acc row = acc.add col 1 := by
  rcases hu with hs | hw
  · have hcol : col = Col.sim := by
      rw [mapItemToColumn_simCodes _ hs] at hmap
      exact (Option.some.inj hmap).symm
    subst hcol
    simp only [simCodes, List.mem_cons, List.mem_singleton, List.not_mem_nil, or_false] at hs
    rcases hs with hlit | hlit | hlit <;>
      (unfold revertCountsAdd
       rw [hlit, if_pos (by decide)])
  · have hcol : col = Col.swap := by
      rw [hw, mapItemToColumn_swap] at hmap
      exact (Option.some.inj hmap).symm
    subst hcol
    unfold revertCountsAdd
    rw [hw, if_neg (by decide), if_pos (by decide)]

theorem revertCounts_append_one (l : List SaleRow) (r : SaleRow) :
    revertCounts (l ++ [r]) = revertCountsAdd (revertCounts l) r := by
  unfold revertCounts
  rw [List.foldl_append]
  rfl

theorem Inv.zero_get (col : Col) : Inv.zero.get col = 0 := by
  cases col <;> rfl

/-- Over a batch of unit-counted GSM entries the apply loop is exactly
revertible: the per-column revert counts of the key rows it appended equal the
amounts it deducted, and it appends only key rows. -/
theorem processEntries_gsm_exact (sid : Nat) (rdate : String) (es : List Entry) :
    ∀ st : LoopSt, (∀ e ∈ es, GsmUnitEntry e) → SyncSt sid st →
    (∀ col, (revertCounts ((processEntries sid rdate st es).db.sales.filter
          (isKeyRow sid rdate))).get col
        = (revertCounts (st.db.sales.filter (isKeyRow sid rdate))).get col
          + (st.invMap.get col - (processEntries sid rdate st es).invMap.get col))
    ∧ ((processEntries sid rdate st es).db.sales.filter (fun r => !isKeyRow sid rdate r)
        = st.db.sales.filter (fun r => !isKeyRow sid rdate r)) := by
  induction es with
  | nil =>
      intro st _ _
      constructor
      · intro col
        show (revertCounts (st.db.sales.filter (isKeyRow sid rdate))).get col
          = (revertCounts (st.db.sales.filter (isKeyRow sid rdate))).get col
            + (st.invMap.get col - st.invMap.get col)
        omega
      · rfl
  | cons e es ih =>
      intro st hH hs
      have he := hH e (List.mem_cons_self e es)
      have hrest : ∀ x ∈ es, GsmUnitEntry x := fun x hx => hH x (List.mem_cons_of_mem e hx)
      have hs1 := processRow_sync sid rdate st e hs
      have ihh := ih (processRow sid rdate st e) hrest hs1
      rw [processEntries_cons]
      rcases processRow_gsm_char sid rdate st e he with ⟨hsal, hinvm⟩
        | ⟨col0, hm, hcol, hav, hsal, hinvm⟩
      · constructor
        · intro c
          have h1 := ihh.1 c
          rw [hsal, hinvm] at h1
          exact h1
        · rw [ihh.2, hsal]
      · have hkeyrow : isKeyRow sid rdate (⟨st.db.nextSaleId, sid, rdate, pyLower e.item_code,
            some (digitsVal (rawNumberStr e.rawNumber))⟩ : SaleRow) = true := by
          simp [isKeyRow]
        constructor
        · intro c
          have h1 := ihh.1 c
          rw [hsal, hinvm] at h1
          have hfil : (st.db.sales ++ [(⟨st.db.nextSaleId, sid, rdate, pyLower e.item_code,
                some (digitsVal (rawNumberStr e.rawNumber))⟩ : SaleRow)]).filter
                  (isKeyRow sid rdate)
              = st.db.sales.filter (isKeyRow sid rdate)
                ++ [(⟨st.db.nextSaleId, sid, rdate, pyLower e.item_code,
                    some (digitsVal (rawNumberStr e.rawNumber))⟩ : SaleRow)] := by
            rw [List.filter_append]
            congr 1
            simp [hkeyrow]
          rw [hfil, revertCounts_append_one,
            revertCountsAdd_unit _ _ col0 hm he.1] at h1
          have hge : (1 : Int) ≤ st.invMap.get col0 := by omega
          rw [h1, Inv.get_add, Inv.get_set]
          rcases eq_or_ne c col0 with rfl | hne
          · rw [if_pos rfl, if_pos rfl, max_eq_right (by omega)]
            omega
          · rw [if_neg hne, if_neg hne]
            omega
        · rw [ihh.2, hsal, List.filter_append]
          have hone : ([(⟨st.db.nextSaleId, sid, rdate, pyLower e.item_code,
              some (digitsVal (rawNumberStr e.rawNumber))⟩ : SaleRow)]).filter
                (fun r => !isKeyRow sid rdate r) = [] := by
            simp [hkeyrow]
          rw [hone, List.append_nil]

/-! ## Claim C5 (amended): the empty batch as a pure revert -/

/-- C5 (amended): for a key with no live sale rows, applying a batch of
unit-counted GSM entries and then the empty batch deletes the key's live rows
and restores every counter of the employee to its pre-batch value. -/
theorem C5_empty_batch_revert (db : DB) (sid : Nat) (rdate : String) (entries : List Entry)
    (inv : Inv)
    (hkey : db.sales.filter (isKeyRow sid rdate) = [])
    (hH : ∀ e ∈ entries, GsmUnitEntry e)
    (hinv : db.getInv sid = some inv) :
    ∃ db1 r1 db2 r2,
      insert_sales_and_update_inventory db sid rdate entries = .ok (db1, r1)
      ∧ insert_sales_and_update_inventory db1 sid rdate [] = .ok (db2, r2)
      ∧ db2.sales = db.sales
      ∧ (∀ col, invVal db2 sid col = invVal db sid col) := by
  have hrev1 : applyRevert db sid rdate = db := by
    simp only [applyRevert]
    rw [if_pos (by rw [hkey]; rfl)]
  have hs0 : SyncSt sid (⟨db, inv, [], 0, 0, 0⟩ : LoopSt) := hinv
  have hex := processEntries_gsm_exact sid rdate entries ⟨db, inv, [], 0, 0, 0⟩ hH hs0
  have hsync1 := processEntries_sync sid rdate entries ⟨db, inv, [], 0, 0, 0⟩ hs0
  have hget2 : (applyRevert (processEntries sid rdate ⟨db, inv, [], 0, 0, 0⟩ entries).db sid
      rdate).getInv sid
      = some ((processEntries sid rdate ⟨db, inv, [], 0, 0, 0⟩ entries).invMap.addInv
          (revertCounts ((processEntries sid rdate ⟨db, inv, [], 0, 0, 0⟩ entries).db.sales.filter
            (isKeyRow sid rdate)))) := by
    rw [applyRevert_getInv_self, hsync1]
    rfl
  have hrestore : ∀ col,
      ((processEntries sid rdate ⟨db, inv, [], 0, 0, 0⟩ entries).invMap.addInv
        (revertCounts ((processEntries sid rdate ⟨db, inv, [], 0, 0, 0⟩ entries).db.sales.filter
          (isKeyRow sid rdate)))).get col = inv.get col := by
    intro col
    rw [Inv.get_addInv]
    have h1 := hex.1 col
    dsimp only at h1
    have hz : (revertCounts (db.sales.filter (isKeyRow sid rdate))).get col = 0 := by
      rw [hkey]
      exact Inv.zero_get col
    rw [hz] at h1
    omega
  have hcall1 : insert_sales_and_update_inventory db sid rdate entries
      = .ok ((processEntries sid rdate ⟨db, inv, [], 0, 0, 0⟩ entries).db,
          ⟨(processEntries sid rdate ⟨db, inv, [], 0, 0, 0⟩ entries).skipped,
           (processEntries sid rdate ⟨db, inv, [], 0, 0, 0⟩ entries).dups,
           (processEntries sid rdate ⟨db, inv, [], 0, 0, 0⟩ entries).insuff,
           (processEntries sid rdate ⟨db, inv, [], 0, 0, 0⟩ entries).inserted⟩) := by
    simp only [insert_sales_and_update_inventory]
    rw [hrev1, hinv]
  have hcall2 : insert_sales_and_update_inventory
        (processEntries sid rdate ⟨db, inv, [], 0, 0, 0⟩ entries).db sid rdate []
      = .ok (applyRevert (processEntries sid rdate ⟨db, inv, [], 0, 0, 0⟩ entries).db sid rdate,
          ⟨[], 0, 0, 0⟩) := by
    simp only [insert_sales_and_update_inventory]
    rw [hget2]
    rfl
  refine ⟨_, _, _, _, hcall1, hcall2, ?_, ?_⟩
  · rw [applyRevert_sales, hex.2]
    show db.sales.filter _ = _
    rw [List.filter_eq_self]
    intro r hr
    have := List.filter_eq_nil_iff.mp hkey r hr
    simp_all
  · intro col
    unfold invVal
    rw [hget2, hinv]
    exact hrestore col

def dbC5A : DB := ⟨[(2, ⟨4, 3, 0, 0⟩)], [⟨1, 9, "2025-10-30", "sim", some 750000111⟩], [], [], 2⟩

def eC5A : Entry := ⟨"sim", some "750100777", 0, 0, none, none⟩

def eC5B : Entry := ⟨"swap", some "750100888", 0, 0, none, none⟩

theorem C5_empty_batch_revert_witness :
    ∃ db1 r1 db2 r2,
      insert_sales_and_update_inventory dbC5A 2 "2025-11-01" [eC5A, eC5B] = .ok (db1, r1)
      ∧ insert_sales_and_update_inventory db1 2 "2025-11-01" [] = .ok (db2, r2)
      ∧ db2.sales = dbC5A.sales
      ∧ (∀ col, invVal db2 2 col = invVal dbC5A 2 col) :=
  C5_empty_batch_revert dbC5A 2 "2025-11-01" [eC5A, eC5B] ⟨4, 3, 0, 0⟩
    (by decide)
    (by
      intro e he
      simp only [List.mem_cons, List.mem_singleton, List.not_mem_nil, or_false] at he
      rcases he with rfl | rfl
      · exact ⟨Or.inl (by decide), by decide, by decide, by decide⟩
      · exact ⟨Or.inr (by decide), by decide, by decide, by decide⟩)
    (by decide)

/-! ## Loop determinism up to row ids -/

/-- The projection of a sale row the loop's decisions can observe: the
duplicate query reads only `item_code` and `number`, never the row id. -/
def salesProj (r : SaleRow) : String × Option Int := (r.item_code, r.number)

theorem dupHit_proj (l l2 : List SaleRow) (store : Option Int)
    (h : l.map salesProj = l2.map salesProj) :
    dupHit l store = dupHit l2 store := by
  have hany : ∀ m : List SaleRow,
      dupHit m store
        = (m.map salesProj).any (fun p => p.2 == store && simCodes.contains p.1) := by
    intro m
    induction m with
    | nil => rfl
    | cons r rs ih => simp [dupHit, salesProj, List.any_cons] at ih ⊢; rw [ih]
  rw [hany l, hany l2, h]

/-- Pure effect of one credit sub-step on the in-memory balance. -/
def creditInvPure (col : Col) (c : Int) (v : Inv) : Inv :=
  if 0 < c then
    if v.get col < c then v else v.set col (max 0 (v.get col - c))
  else v

/-- Pure effect of one credit sub-step on the projected sales suffix. -/
def creditProjPure (col : Col) (cs : String) (c : Int) (v : Inv) : List (String × Option Int) :=
  if 0 < c then
    if v.get col < c then [] else [(cs, some c)]
  else []

theorem creditStep_invMap_pure (sid : Nat) (rdate : String) (col : Col) (cs : String) (c : Int)
    (db : DB) (v : Inv) :
    (creditStep sid rdate col cs c db v).2.1 = creditInvPure col c v := by
  unfold creditStep creditInvPure
  split
  · split <;> rfl
  · rfl

theorem creditStep_proj_pure (sid : Nat) (rdate : String) (col : Col) (cs : String) (c : Int)
    (db : DB) (v : Inv) :
    ((creditStep sid rdate col cs c db v).1).sales.map salesProj
      = db.sales.map salesProj ++ creditProjPure col cs c v := by
  unfold creditStep creditProjPure
  split
  · split
    · simp
    · rw [saleInsertStep_sales, List.map_append]
      rfl
  · simp

/-- In the insert branch the final in-memory balance is a pure function of
the entry and the balance at entry. -/
theorem processRow_insert_invMap (sid : Nat) (rdate : String) (st : LoopSt) (e : Entry)
    (col : Col)
    (hdup : (isGsm e.rawNumber && simCodes.contains (pyLower e.item_code)
      && dupHit st.db.sales (entryDeductStore e).2) = false)
    (hm : mapItemToColumn (pyLower e.item_code) = some col)
    (hav : ¬(st.invMap.get col < (entryDeductStore e).1)) :
    (processRow sid rdate st e).invMap
      = creditInvPure .credit100 e.credit_100
          (creditInvPure .credit50 e.credit_50
            (st.invMap.set col (max 0 (st.invMap.get col - (entryDeductStore e).1)))) := by
  simp only [processRow]
  rw [if_neg (by rw [hdup]; simp), hm]
  dsimp only
  rw [if_neg hav]
  show (creditStep _ _ _ _ _ _ _).2.1 = _
  rw [creditStep_invMap_pure, creditStep_invMap_pure]

/-- In the insert branch the projected sales are those at entry plus the main
row's projection plus pure credit suffixes. -/
theorem processRow_insert_proj (sid : Nat) (rdate : String) (st : LoopSt) (e : Entry)
    (col : Col)
    (hdup : (isGsm e.rawNumber && simCodes.contains (pyLower e.item_code)
      && dupHit st.db.sales (entryDeductStore e).2) = false)
    (hm : mapItemToColumn (pyLower e.item_code) = some col)
    (hav : ¬(st.invMap.get col < (entryDeductStore e).1)) :
    (processRow sid rdate st e).db.sales.map salesProj
      = st.db.sales.map salesProj
        ++ [(pyLower e.item_code, (entryDeductStore e).2)]
        ++ creditProjPure .credit50 "credit_50" e.credit_50
            (st.invMap.set col (max 0 (st.invMap.get col - (entryDeductStore e).1)))
        ++ creditProjPure .credit100 "credit_100" e.credit_100
            (creditInvPure .credit50 e.credit_50
              (st.invMap.set col (max 0 (st.invMap.get col - (entryDeductStore e).1)))) := by
  simp only [processRow]
  rw [if_neg (by rw [hdup]; simp), hm]
  dsimp only
  rw [if_neg hav]
  show ((creditStep _ _ _ _ _ (creditStep _ _ _ _ _ _ _).1 _).1).sales.map salesProj = _
  rw [creditStep_proj_pure, creditStep_invMap_pure, creditStep_proj_pure, simMarkStep_sales,
    saleInsertStep_sales, List.map_append]
  simp [salesProj, List.append_assoc]

/-- Two loop states agreeing on the in-memory balance and the projected sales
stay in agreement under one iteration: the loop's observable effect does not
depend on row ids, the journal, or the sim_batches table. -/
theorem processRow_proj (sid : Nat) (rdate : String) (e : Entry) (st st2 : LoopSt)
    (h1 : st.invMap = st2.invMap)
    (h2 : st.db.sales.map salesProj = st2.db.sales.map salesProj) :
    (processRow sid rdate st e).invMap = (processRow sid rdate st2 e).invMap
    ∧ (processRow sid rdate st e).db.sales.map salesProj
        = (processRow sid rdate st2 e).db.sales.map salesProj := by
  have hdeq : dupHit st.db.sales (entryDeductStore e).2
      = dupHit st2.db.sales (entryDeductStore e).2 := dupHit_proj _ _ _ h2
  by_cases hdup : (isGsm e.rawNumber && simCodes.contains (pyLower e.item_code)
      && dupHit st.db.sales (entryDeductStore e).2) = true
  · have hdup2 : (isGsm e.rawNumber && simCodes.contains (pyLower e.item_code)
        && dupHit st2.db.sales (entryDeductStore e).2) = true := by
      rw [← hdeq]
      exact hdup
    rw [processRow_dup_char sid rdate st e hdup, processRow_dup_char sid rdate st2 e hdup2]
    exact ⟨h1, h2⟩
  · have hdupF : (isGsm e.rawNumber && simCodes.contains (pyLower e.item_code)
        && dupHit st.db.sales (entryDeductStore e).2) = false := by
      simpa using hdup
    have hdupF2 : (isGsm e.rawNumber && simCodes.contains (pyLower e.item_code)
        && dupHit st2.db.sales (entryDeductStore e).2) = false := by
      rw [← hdeq]
      exact hdupF
    cases hm : mapItemToColumn (pyLower e.item_code) with
    | none =>
        rw [processRow_invalid_char sid rdate st e hdupF hm,
          processRow_invalid_char sid rdate st2 e hdupF2 hm]
        exact ⟨h1, h2⟩
    | some col =>
        by_cases hav : st.invMap.get col < (entryDeductStore e).1
        · have hav2 : st2.invMap.get col < (entryDeductStore e).1 := by
            rw [← h1]
            exact hav
          rw [processRow_insuff_char sid rdate st e col hdupF hm hav,
            processRow_insuff_char sid rdate st2 e col hdupF2 hm hav2]
          exact ⟨h1, h2⟩
        · have hav2 : ¬(st2.invMap.get col < (entryDeductStore e).1) := by
            rw [← h1]
            exact hav
          constructor
          · rw [processRow_insert_invMap sid rdate st e col hdupF hm hav,
              processRow_insert_invMap sid rdate st2 e col hdupF2 hm hav2, h1]
          · rw [processRow_insert_proj sid rdate st e col hdupF hm hav,
              processRow_insert_proj sid rdate st2 e col hdupF2 hm hav2, h1, h2]

theorem processEntries_proj (sid : Nat) (rdate : String) (es : List Entry) :
    ∀ st st2 : LoopSt, st.invMap = st2.invMap →
      st.db.sales.map salesProj = st2.db.sales.map salesProj →
      (processEntries sid rdate st es).invMap = (processEntries sid rdate st2 es).invMap
      ∧ (processEntries sid rdate st es).db.sales.map salesProj
          = (processEntries sid rdate st2 es).db.sales.map salesProj := by
  induction es with
  | nil => intro st st2 h1 h2; exact ⟨h1, h2⟩
  | cons e es ih =>
      intro st st2 h1 h2
      rw [processEntries_cons, processEntries_cons]
      have hr := processRow_proj sid rdate e st st2 h1 h2
      exact ih _ _ hr.1 hr.2

theorem filter_not_filter (l : List SaleRow) (p : SaleRow → Bool) :
    (l.filter (fun r => !p r)).filter p = [] := by
  rw [List.filter_filter]
  apply List.filter_eq_nil_iff.mpr
  intro r _
  cases hp : p r <;> simp [hp]

theorem filter_not_idem (l : List SaleRow) (p : SaleRow → Bool) :
    (l.filter (fun r => !p r)).filter (fun r => !p r) = l.filter (fun r => !p r) := by
  rw [List.filter_filter]
  congr 1
  funext r
  cases hp : p r <;> simp [hp]

/-! ## Claim C2 (amended): idempotent re-upload for unit-counted GSM batches -/

/-- C2 (amended): for a batch in which every entry is a unit-counted SIM/SWAP
row with a well-formed GSM identifier and no credit sub-counts, applying the
batch twice in succession to the same key leaves every counter of the
employee equal after the second apply to its value after the first apply. -/
theorem C2_idempotent_gsm_batches (db : DB) (sid : Nat) (rdate : String) (entries : List Entry)
    (inv : Inv)
    (hH : ∀ e ∈ entries, GsmUnitEntry e)
    (hinv : (applyRevert db sid rdate).getInv sid = some inv) :
    ∃ db1 r1 db2 r2,
      insert_sales_and_update_inventory db sid rdate entries = .ok (db1, r1)
      ∧ insert_sales_and_update_inventory db1 sid rdate entries = .ok (db2, r2)
      ∧ (∀ col, invVal db2 sid col = invVal db1 sid col) := by
  have hs0 : SyncSt sid (⟨applyRevert db sid rdate, inv, [], 0, 0, 0⟩ : LoopSt) := hinv
  have hex := processEntries_gsm_exact sid rdate entries
    ⟨applyRevert db sid rdate, inv, [], 0, 0, 0⟩ hH hs0
  have hsync1 := processEntries_sync sid rdate entries
    ⟨applyRevert db sid rdate, inv, [], 0, 0, 0⟩ hs0
  have hkeyR : (applyRevert db sid rdate).sales.filter (isKeyRow sid rdate) = [] := by
    rw [applyRevert_sales]
    exact filter_not_filter db.sales (isKeyRow sid rdate)
  have hcounts : ∀ col,
      (revertCounts ((processEntries sid rdate ⟨applyRevert db sid rdate, inv, [], 0, 0, 0⟩
          entries).db.sales.filter (isKeyRow sid rdate))).get col
        = inv.get col
          - (processEntries sid rdate ⟨applyRevert db sid rdate, inv, [], 0, 0, 0⟩
              entries).invMap.get col := by
    intro col
    have h1 := hex.1 col
    dsimp only at h1
    rw [hkeyR] at h1
    have hz : revertCounts ([] : List SaleRow) = Inv.zero := rfl
    rw [hz] at h1
    rw [h1, Inv.zero_get]
    omega
  have hget2 : (applyRevert (processEntries sid rdate
      ⟨applyRevert db sid rdate, inv, [], 0, 0, 0⟩ entries).db sid rdate).getInv sid
      = some inv := by
    rw [applyRevert_getInv_self, hsync1]
    show some _ = some _
    congr 1
    apply Inv.ext_get
    intro col
    rw [Inv.get_addInv, hcounts col]
    omega
  have hsales2 : (applyRevert (processEntries sid rdate
      ⟨applyRevert db sid rdate, inv, [], 0, 0, 0⟩ entries).db sid rdate).sales
      = (applyRevert db sid rdate).sales := by
    rw [applyRevert_sales, hex.2]
    show List.filter _ (applyRevert db sid rdate).sales = _
    rw [applyRevert_sales]
    exact filter_not_idem db.sales (isKeyRow sid rdate)
  have hcall1 : insert_sales_and_update_inventory db sid rdate entries
      = .ok ((processEntries sid rdate ⟨applyRevert db sid rdate, inv, [], 0, 0, 0⟩ entries).db,
          ⟨(processEntries sid rdate ⟨applyRevert db sid rdate, inv, [], 0, 0, 0⟩ entries).skipped,
           (processEntries sid rdate ⟨applyRevert db sid rdate, inv, [], 0, 0, 0⟩ entries).dups,
           (processEntries sid rdate ⟨applyRevert db sid rdate, inv, [], 0, 0, 0⟩ entries).insuff,
           (processEntries sid rdate ⟨applyRevert db sid rdate, inv, [], 0, 0, 0⟩
             entries).inserted⟩) := by
    simp only [insert_sales_and_update_inventory]
    rw [hinv]
  have hcall2 : insert_sales_and_update_inventory
        (processEntries sid rdate ⟨applyRevert db sid rdate, inv, [], 0, 0, 0⟩ entries).db
        sid rdate entries
      = .ok ((processEntries sid rdate
            ⟨applyRevert (processEntries sid rdate ⟨applyRevert db sid rdate, inv, [], 0, 0, 0⟩
                entries).db sid rdate, inv, [], 0, 0, 0⟩ entries).db,
          ⟨(processEntries sid rdate
              ⟨applyRevert (processEntries sid rdate ⟨applyRevert db sid rdate, inv, [], 0, 0, 0⟩
                  entries).db sid rdate, inv, [], 0, 0, 0⟩ entries).skipped,
           (processEntries sid rdate
              ⟨applyRevert (processEntries sid rdate ⟨applyRevert db sid rdate, inv, [], 0, 0, 0⟩
                  entries).db sid rdate, inv, [], 0, 0, 0⟩ entries).dups,
           (processEntries sid rdate
              ⟨applyRevert (processEntries sid rdate ⟨applyRevert db sid rdate, inv, [], 0, 0, 0⟩
                  entries).db sid rdate, inv, [], 0, 0, 0⟩ entries).insuff,
           (processEntries sid rdate
              ⟨applyRevert (processEntries sid rdate ⟨applyRevert db sid rdate, inv, [], 0, 0, 0⟩
                  entries).db sid rdate, inv, [], 0, 0, 0⟩ entries).inserted⟩) := by
    simp only [insert_sales_and_update_inventory]
    rw [hget2]
  have hsim := processEntries_proj sid rdate entries
    ⟨applyRevert (processEntries sid rdate ⟨applyRevert db sid rdate, inv, [], 0, 0, 0⟩
        entries).db sid rdate, inv, [], 0, 0, 0⟩
    ⟨applyRevert db sid rdate, inv, [], 0, 0, 0⟩
    rfl (by show (applyRevert _ sid rdate).sales.map salesProj = _; rw [hsales2])
  have hsync2 := processEntries_sync sid rdate entries
    ⟨applyRevert (processEntries sid rdate ⟨applyRevert db sid rdate, inv, [], 0, 0, 0⟩
        entries).db sid rdate, inv, [], 0, 0, 0⟩ hget2
  refine ⟨_, _, _, _, hcall1, hcall2, ?_⟩
  intro col
  unfold invVal
  unfold SyncSt at hsync1 hsync2
  rw [hsync1, hsync2]
  show ((processEntries sid rdate
      ⟨applyRevert (processEntries sid rdate ⟨applyRevert db sid rdate, inv, [], 0, 0, 0⟩
          entries).db sid rdate, inv, [], 0, 0, 0⟩ entries).invMap).get col = _
  rw [hsim.1]
  rfl

def dbC2A : DB := ⟨[(5, ⟨3, 2, 0, 0⟩)], [⟨1, 5, "2025-11-01", "sim", some 750000222⟩], [], [], 2⟩

def eC2A : Entry := ⟨"sim", some "750100333", 0, 0, none, none⟩

theorem C2_idempotent_gsm_batches_witness :
    ∃ db1 r1 db2 r2,
      insert_sales_and_update_inventory dbC2A 5 "2025-11-01" [eC2A] = .ok (db1, r1)
      ∧ insert_sales_and_update_inventory db1 5 "2025-11-01" [eC2A] = .ok (db2, r2)
      ∧ (∀ col, invVal db2 5 col = invVal db1 5 col) :=
  C2_idempotent_gsm_batches dbC2A 5 "2025-11-01" [eC2A] ⟨4, 2, 0, 0⟩
    (by
      intro e he
      simp only [List.mem_singleton] at he
      subst he
      exact ⟨Or.inl (by decide), by decide, by decide, by decide⟩)
    (by decide)

end Accounting
